import Mathlib

/-!
Verification of the animated-slide expansion core of this repository
(`new.py`, `split_slide.py`, `split_anim.py`, `pptx_split_anim_inout.py`)
against its natural-language specification.

The Python code is shallowly embedded: Python `dict`s over shape ids become
insertion-ordered association lists with in-place update, XML trees become a
rose tree of elements, and the imperative loops become structural recursions
that are observationally identical to the source (each embedding carries a
comment pointing at the lines of the source file it mirrors).
-/

namespace PptxSplit

/-! ## Python dict model

`collect_shapes` / `build_snapshots` (`new.py`) manipulate Python dicts keyed
by integer shape ids.  A dict is modelled as an association list with the
dict's insertion order; assigning to an existing key updates it in place,
assigning to a fresh key appends it at the end, exactly as a Python dict
iterates. -/

abbrev Dict := List (Int × Bool)

def dictLookup (d : Dict) (k : Int) : Option Bool :=
  match d with
  | [] => none
  | (k', v) :: r => if k' = k then some v else dictLookup r k

/-- `d[k] = v` on a Python dict: update in place if present, append if new. -/
def dictSet (d : Dict) (k : Int) (v : Bool) : Dict :=
  match d with
  | [] => [(k, v)]
  | (k', v') :: r => if k' = k then (k, v) :: r else (k', v') :: dictSet r k v

/-- `d.get(k, dflt)` on a Python dict. -/
def dictGetD (d : Dict) (k : Int) (dflt : Bool) : Bool :=
  (dictLookup d k).getD dflt

/-! ## Timeline visibility state machine (`new.py`)

`build_snapshots(shapes, events)` (`new.py` lines 102-127).  An event is
`(step_serial, spid, visible)`; `step_serial : Nat` is the counter assigned by
`collect_visibility_events`, `spid : Int` comes from `int(...)` on the XML
attribute. -/

abbrev TEvent := Nat × Int × Bool

/-- `state = {spid: True for spid in shapes}` (`new.py` line 106); `shapes`
iterates in insertion order, i.e. document order of the shape elements. -/
def initState (shapes : List Int) : Dict :=
  shapes.map (fun s => (s, true))

/-- The `first_change` loop of `build_snapshots` (`new.py` lines 109-114):
for the first event of each spid, if it turns the shape visible the initial
state is overridden to hidden.  `seen` is the key set of `first_change`. -/
def firstChangePass (st : Dict) (seen : List Int) : List TEvent → Dict
  | [] => st
  | (_, spid, vis) :: r =>
      if spid ∈ seen then firstChangePass st seen r
      else firstChangePass (if vis then dictSet st spid false else st) (spid :: seen) r

/-- The replay loop of `build_snapshots` (`new.py` lines 118-124).  `current`
is `current_step`, starting at `-1`; when the serial changes and the previous
one was not the initial `-1`, a deep copy of the state is emitted before the
assignment.  Returns the emitted snapshots and the final state. -/
def replayLoop (st : Dict) (current : Int) : List TEvent → List Dict × Dict
  | [] => ([], st)
  | (s, spid, vis) :: r =>
      let emit : List Dict := if (s : Int) ≠ current ∧ current ≠ -1 then [st] else []
      let res := replayLoop (dictSet st spid vis) (s : Int) r
      (emit ++ res.1, res.2)

/-- `build_snapshots` (`new.py` lines 102-127): snapshot 0 is the initial
state after the entrance override, then one snapshot per step transition,
then the final state. -/
def build_snapshots (shapes : List Int) (events : List TEvent) : List Dict :=
  let st0 := firstChangePass (initState shapes) [] events
  let res := replayLoop st0 (-1) events
  st0 :: res.1 ++ [res.2]

/-- Timeline mode on one slide (`new.py` `main`, lines 197-203): a slide with
no events is materialised once with every shape visible and `build_snapshots`
is never called; otherwise the slide becomes one part per snapshot. -/
def timelineSnapshots (shapes : List Int) (events : List TEvent) : List Dict :=
  if events.isEmpty then [initState shapes] else build_snapshots shapes events

/-- Number of snapshot emissions of the replay loop from `current = c`: one
per serial change whose previous `current` is not the initial `-1`. -/
def changes (c : Int) : List TEvent → Nat
  | [] => 0
  | (s, _, _) :: r => (if (s : Int) ≠ c ∧ c ≠ -1 then 1 else 0) + changes (s : Int) r

/-- `changes` restricted to the serial list, after the first event has set
`current` to a serial (which is never `-1`). -/
def natChanges (p : Nat) : List Nat → Nat
  | [] => 0
  | s :: r => (if s ≠ p then 1 else 0) + natChanges s r

/-- The first event (in list order) whose target is `spid`. -/
def firstEventFor (spid : Int) (events : List TEvent) : Option TEvent :=
  events.find? (fun e => e.2.1 = spid)

/-! ## Deck splicer (`new.py` `main`, lines 205-233)

Snapshot 0 replaces the source slide part in place (same path, same
slide-list entry); each later snapshot allocates the next slide part number
(`max_slide_num += 1`) and its slide-list entry is inserted directly after
the previously inserted one (`sldId.addnext(new_sldId_el); sldId = new_sldId_el`). -/

/-- Insert `a` at position `i` of `l` (list unchanged when `i > l.length`). -/
def insertAt (l : List α) (i : Nat) (a : α) : List α :=
  match l, i with
  | l, 0 => a :: l
  | [], _ + 1 => []
  | x :: r, i + 1 => x :: insertAt r i a

/-- The repeated `addnext` with pointer advance: each new entry goes right
after position `pos`, and the pointer moves onto it. -/
def insertLoop (l : List α) (pos : Nat) : List α → List α
  | [] => l
  | n :: ns => insertLoop (insertAt l (pos + 1) n) (pos + 1) ns

/-- Part names written for one animated slide: the original part (rewritten
in place with snapshot 0) followed by `slide{max_slide_num + i}.xml` for each
later snapshot (`new.py` lines 206-213). -/
def timelineSlideParts (origName : String) (maxSlideNum : Nat) (extraCount : Nat) :
    List String :=
  origName :: (List.range extraCount).map
    (fun i => "slide" ++ toString (maxSlideNum + i + 1) ++ ".xml")

/-- Slide-list entries after splicing one animated slide whose source entry
sits at `pos`: one fresh entry per later snapshot, inserted contiguously
after the source entry, in emission order. -/
def timelineSlideList (sldLst : List String) (pos : Nat) (newEntries : List String) :
    List String :=
  insertLoop sldLst pos newEntries

/-- Accumulating decimal parse of a digit list; fails at the first non-digit
character. -/
def digitsToNatAux (acc : Nat) : List Char → Option Nat
  | [] => some acc
  | c :: cs =>
      if c.isDigit then digitsToNatAux (acc * 10 + (c.toNat - 48)) cs else none

/-- Python's `int(...)` on the attribute strings the scripts parse: an
optional leading minus followed by at least one digit; anything else raises
`ValueError`, which every call site catches and turns into a skip. -/
def parseInt (s : String) : Option Int :=
  match s.toList with
  | [] => none
  | '-' :: cs =>
      match cs with
      | [] => none
      | _ => (digitsToNatAux 0 cs).map (fun n => -(n : Int))
  | cs => (digitsToNatAux 0 cs).map (fun n => (n : Int))

/-! ## Timeline classifier (`collect_visibility_events`, `new.py` lines 64-99)

The xpath walk `//p:set` visits every `<p:set>` node in document order.  A
node is embedded as the data the loop reads from it: the texts of its
`attrNameLst/attrName` children, the list of `spTgt/@spid` attribute values,
the list of `to/strVal/@val` values, and the identity of its nearest
enclosing `<p:cTn>` (`ancestor::p:cTn[1]`).  `ctnKey` stands for the dict key
the code builds from that container — its explicit `id` attribute when
present, otherwise the Python object identity `id(...)` — so two set nodes
share `ctnKey` exactly when the code groups them in `ctn_to_serial`. -/

structure SetNode where
  attrNames : List String
  spidAttrs : List String
  toVals : List String
  ctnKey : Nat
  deriving DecidableEq, Repr

/-- The skip logic of the loop body (`new.py` lines 75-88): a node yields an
event `(spid, visible)` only when it targets `style.visibility`, has both a
target spid and a target value, and the spid parses as an integer;
`visible = to_val[0] != "hidden"`. -/
def setEvent (n : SetNode) : Option (Int × Bool) :=
  if "style.visibility" ∈ n.attrNames then
    match n.spidAttrs, n.toVals with
    | spid :: _, v :: _ =>
        match parseInt spid with
        | some i => some (i, v ≠ "hidden")
        | none => none
    | _, _ => none
  else none

/-- A sample walk: three qualifying visibility-set nodes, the first and the
third under the same timing container (key 5), the second under another
(key 9). -/
def cvDemo : List SetNode :=
  [⟨["style.visibility"], ["2"], ["visible"], 5⟩,
   ⟨["style.visibility"], ["3"], ["hidden"], 9⟩,
   ⟨["style.visibility"], ["4"], ["visible"], 5⟩]

/-- Association-list lookup for `ctn_to_serial`. -/
def serialLookup (m : List (Nat × Nat)) (k : Nat) : Option Nat :=
  match m with
  | [] => none
  | (k', s) :: r => if k' = k then some s else serialLookup r k

/-- The serial-assignment loop (`new.py` lines 90-97).  `m` is
`ctn_to_serial`; the running counter `step_serial` always equals
`m.length - 1`, so a fresh key receives serial `m.length`. -/
def cveLoop (m : List (Nat × Nat)) : List SetNode → List TEvent
  | [] => []
  | n :: r =>
      match setEvent n with
      | none => cveLoop m r
      | some (spid, vis) =>
          match serialLookup m n.ctnKey with
          | some serial => (serial, spid, vis) :: cveLoop m r
          | none => (m.length, spid, vis) :: cveLoop (m ++ [(n.ctnKey, m.length)]) r

/-- `collect_visibility_events` over the document-order list of set nodes. -/
def collect_visibility_events (nodes : List SetNode) : List TEvent :=
  cveLoop [] nodes

/-- The container keys of the qualifying set nodes, in document order. -/
def qualKeys (nodes : List SetNode) : List Nat :=
  (nodes.filter (fun n => (setEvent n).isSome)).map SetNode.ctnKey

/-- Deduplicate keeping first occurrences: the order containers are first
seen during the walk. -/
def firstSeenFrom (acc : List Nat) : List Nat → List Nat
  | [] => acc
  | a :: l => firstSeenFrom (if a ∈ acc then acc else acc ++ [a]) l

def firstSeen (l : List Nat) : List Nat :=
  firstSeenFrom [] l

/-- Index of the first occurrence of `k` (length of the list when absent). -/
def idx (k : Nat) : List Nat → Nat
  | [] => 0
  | a :: l => if a = k then 0 else idx k l + 1

/-- `ctn_to_serial` as an association list when the keys seen so far are
`ks`, in first-seen order starting from serial `n`. -/
def keySerials (n : Nat) : List Nat → List (Nat × Nat)
  | [] => []
  | k :: ks => (k, n) :: keySerials (n + 1) ks

/-! ## Split-mode classifier (`extract_entr_exit_ids`, `split_anim.py` lines 56-144)

The function makes five xpath passes over the slide XML; each pass is a loop
over the nodes a selector matches, in document order.  A node is embedded as
the data the corresponding loop reads from it:

  * `animEffect cls filt targets` — `.//p:animEffect`, its `presetClass` and
    `filter` attributes and its `spTgt/@spid` targets (`None` when absent);
  * `clickCtn cls targets visVal` — `.//p:cTn[@nodeType='clickEffect']`, its
    `presetClass`, targets and the first
    `.//p:set[p:attrName='style.visibility']/p:to/p:strVal/@val` when any;
  * `setNode attrNames toVals targets` — `.//p:set`, the texts of its
    `attrName` descendants, the first non-empty of the three `to`-value
    selectors, and its targets;
  * `animMotion to targets` — `.//p:animMotion`, the `(x, y)` of its `to`
    child when present (`int(..., "0")` already applied), and its targets;
  * `p14Effect cls targets` — `.//p14:animEffect` with its `presetClass`. -/

inductive AnimNode where
  | animEffect (cls : Option String) (filt : Option String) (targets : List (Option String))
  | clickCtn (cls : Option String) (targets : List (Option String)) (visVal : Option String)
  | setNode (attrNames : List String) (toVals : List String) (targets : List (Option String))
  | animMotion (toXY : Option (Int × Int)) (targets : List (Option String))
  | p14Effect (cls : Option String) (targets : List (Option String))
  deriving DecidableEq, Repr

/-- `_add(bucket, ids)` (`split_anim.py` lines 79-80):
`bucket.update({i for i in ids if i})` — `None` and the empty string are
falsy and filtered out.  Buckets are modelled as lists; only membership is
observed. -/
def addIds (bucket : List String) (ids : List (Option String)) : List String :=
  bucket ++ ids.filterMap (fun o =>
    match o with
    | some s => if s = "" then none else some s
    | none => none)

/-- Python `str.lower()`, characterwise. -/
def lowerStr (s : String) : String :=
  String.mk (s.toList.map Char.toLower)

/-- Python `str.startswith(pre)`. -/
def startsWithStr (s pre : String) : Bool :=
  pre.toList.isPrefixOf s.toList

/-- `(x or "").lower()` on an optional attribute. -/
def lowerOpt (o : Option String) : String :=
  lowerStr (o.getD "")

/-- Two id buckets, `(entrance, exit_)`. -/
abbrev Buckets := List String × List String

/-- Pass 1 loop body, `animEffect` by `presetClass` / `filter` (lines 86-93);
nodes another pass handles leave the buckets alone. -/
def passStep1 (acc : Buckets) (n : AnimNode) : Buckets :=
  match n with
  | .animEffect cls filt tgts =>
      let c := lowerOpt cls
      let f := lowerOpt filt
      if c = "entr" ∨ startsWithStr f "in:" then (addIds acc.1 tgts, acc.2)
      else if c = "exit" ∨ startsWithStr f "out:" then (acc.1, addIds acc.2 tgts)
      else acc
  | _ => acc

/-- Pass 2 loop body, click-triggered containers (lines 96-107). -/
def passStep2 (acc : Buckets) (n : AnimNode) : Buckets :=
  match n with
  | .clickCtn cls tgts visVal =>
      let c := lowerOpt cls
      if c = "entr" then (addIds acc.1 tgts, acc.2)
      else if c = "exit" then (acc.1, addIds acc.2 tgts)
      else
        match visVal with
        | some v =>
            if v = "hidden" then (acc.1, addIds acc.2 tgts)
            else (addIds acc.1 tgts, acc.2)
        | none => acc
  | _ => acc

/-- Pass 3 loop body, visibility / opacity attribute sets (lines 110-122).
`to_val = to_val[0] if to_val else ""`; attribute names are lowercased. -/
def passStep3 (acc : Buckets) (n : AnimNode) : Buckets :=
  match n with
  | .setNode attrNames toVals tgts =>
      let attrs := attrNames.map lowerStr
      let toVal := toVals.headD ""
      if "style.visibility" ∈ attrs then
        if toVal = "hidden" then (acc.1, addIds acc.2 tgts)
        else (addIds acc.1 tgts, acc.2)
      else if "opacity" ∈ attrs ∨ "style.opacity" ∈ attrs then
        if toVal = "0" ∨ toVal = "0.0" then (acc.1, addIds acc.2 tgts)
        else (addIds acc.1 tgts, acc.2)
      else acc
  | _ => acc

/-- Pass 4 loop body, motion paths leaving the canvas (lines 125-133). -/
def passStep4 (acc : Buckets) (n : AnimNode) : Buckets :=
  match n with
  | .animMotion toXY tgts =>
      match toXY with
      | some (x, y) =>
          if x < 0 ∨ y < 0 ∨ x > 100000 ∨ y > 100000 then (acc.1, addIds acc.2 tgts)
          else acc
      | none => acc
  | _ => acc

/-- Pass 5 loop body, extended-namespace effects (lines 136-142). -/
def passStep5 (acc : Buckets) (n : AnimNode) : Buckets :=
  match n with
  | .p14Effect cls tgts =>
      let c := lowerOpt cls
      if c = "entr" then (addIds acc.1 tgts, acc.2)
      else if c = "exit" then (acc.1, addIds acc.2 tgts)
      else acc
  | _ => acc

def pass1 (acc : Buckets) (ns : List AnimNode) : Buckets := ns.foldl passStep1 acc
def pass2 (acc : Buckets) (ns : List AnimNode) : Buckets := ns.foldl passStep2 acc
def pass3 (acc : Buckets) (ns : List AnimNode) : Buckets := ns.foldl passStep3 acc
def pass4 (acc : Buckets) (ns : List AnimNode) : Buckets := ns.foldl passStep4 acc
def pass5 (acc : Buckets) (ns : List AnimNode) : Buckets := ns.foldl passStep5 acc

/-- `extract_entr_exit_ids` (`split_anim.py` lines 56-144): the five passes in
order, threading the `(entrance, exit_)` buckets. -/
def extract_entr_exit_ids (nodes : List AnimNode) : List String × List String :=
  pass5 (pass4 (pass3 (pass2 (pass1 ([], []) nodes) nodes) nodes) nodes) nodes

/-- A decimal string denoting zero: digits with at most one decimal point, at
least one digit, and every digit `0`.  This renders the spec's phrase "a
target value of zero" for the opacity rule of C6. -/
def decimalIsZero (s : String) : Bool :=
  let cs := s.toList
  cs.any Char.isDigit &&
  cs.all (fun c => c.isDigit || c = '.') &&
  (cs.filter (fun c => c = '.')).length ≤ 1 &&
  cs.all (fun c => c.isDigit → c = '0')

/-! ## Slide XML trees

A slide part is a rose tree of elements; namespace prefixes are dropped
(`sp` stands for `p:sp`, etc.).  Attributes are an association list. -/

inductive Xml where
  | elem (tag : String) (attrs : List (String × String)) (children : List Xml)

def Xml.tag : Xml → String
  | .elem t _ _ => t

def Xml.attrs : Xml → List (String × String)
  | .elem _ a _ => a

def Xml.children : Xml → List Xml
  | .elem _ _ cs => cs

/-- First binding of an attribute name in an attribute list. -/
def attrsLookup (a : List (String × String)) (name : String) : Option String :=
  match a with
  | [] => none
  | (k, v) :: r => if k = name then some v else attrsLookup r name

/-- `el.get(name)`. -/
def xmlAttr (e : Xml) (name : String) : Option String :=
  attrsLookup e.attrs name

/-- The top-level shape element kinds a python-pptx `slide.shapes` iteration
yields (used by the `_drop_shapes` model of
`pptx_split_anim_inout.py`); `grpSp` is among them. -/
def shapeTags : List String := ["sp", "pic", "graphicFrame", "grpSp"]

/-- The element kinds the materialiser's xpath matches in `new.py` line 136
(`//p:sp | //p:pic | //p:graphicFrame`) — note: no `grpSp`, so a group shape
element is never matched there. -/
def newShapeTags : List String := ["sp", "pic", "graphicFrame"]

mutual
/-- Attrs of the first descendant-or-self `cNvPr`, in document order. -/
def findCNvPr : Xml → Option (List (String × String))
  | .elem t a cs => if t = "cNvPr" then some a else findCNvPrL cs

/-- `el.find(".//p:cNvPr")` over a child list: first match in document order. -/
def findCNvPrL : List Xml → Option (List (String × String))
  | [] => none
  | c :: cs =>
      match findCNvPr c with
      | some a => some a
      | none => findCNvPrL cs
end

/-- The `id` attribute of the first `cNvPr` below a child list, when one
exists at all. -/
def sidAttr (cs : List Xml) : Option (Option String) :=
  (findCNvPrL cs).map (fun a => attrsLookup a "id")

/-- The shape id resolved below a child list: first `cNvPr`, its `id`
attribute, parsed as an integer. -/
def sidL (cs : List Xml) : Option Int :=
  match findCNvPrL cs with
  | some attrs =>
      match attrsLookup attrs "id" with
      | some s => parseInt s
      | none => none
  | none => none

/-- `int(el.find(".//p:cNvPr").get("id"))` with the `continue` on a missing
`cNvPr`, a missing attribute or a failing parse (`new.py` lines
137-143). -/
def shapeId (e : Xml) : Option Int :=
  sidL e.children

mutual
/-- Number of `timing` elements in a subtree (element itself included). -/
def ctElem : Xml → Nat
  | .elem t _ cs => (if t = "timing" then 1 else 0) + ctList cs

def ctList : List Xml → Nat
  | [] => 0
  | c :: cs => ctElem c + ctList cs
end

mutual
/-- Remove the first `timing` element among the descendants of `e`
(`tree.find(".//p:timing")` followed by `remove`, `new.py` lines
132-134); identity when there is none. -/
def rftElem : Xml → Xml
  | .elem t a cs => .elem t a (rftList cs)

def rftList : List Xml → List Xml
  | [] => []
  | c :: cs =>
      if c.tag = "timing" then cs
      else if 0 < ctElem c then rftElem c :: cs
      else c :: rftList cs
end

/-- The removal test of the materialiser loop (`new.py` lines 136-146): an
`sp`/`pic`/`graphicFrame` element whose resolved id is mapped to `False` is
removed (`if not visible_map.get(spid, True)`); group shapes are never
matched, and elements with no `cNvPr` or no parsable id are kept. -/
def keepElem (vm : Dict) (c : Xml) : Bool :=
  if c.tag ∈ newShapeTags then
    match shapeId c with
    | some i => dictGetD vm i true
    | none => true
  else true

mutual
/-- The shape-removal sweep of `materialise_snapshot` (`new.py` lines
136-146).  The xpath collects every matched shape element up front and each
hidden one is detached from its parent; removals inside an already-detached
subtree are unobservable, so the sweep is the top-down prune below: a hidden
matched child disappears with its whole subtree, every kept child is pruned
recursively.  The root (`p:sld`) itself is never a shape element. -/
def pruneShapes (vm : Dict) : Xml → Xml
  | .elem t a cs => .elem t a (pruneList vm cs)

def pruneList (vm : Dict) : List Xml → List Xml
  | [] => []
  | c :: cs =>
      if keepElem vm c then pruneShapes vm c :: pruneList vm cs
      else pruneList vm cs
end

/-- `materialise_snapshot(orig_tree, visible_map)` (`new.py` lines
130-148): deep copy, drop the timing subtree, drop hidden `sp`/`pic`/
`graphicFrame` shapes. -/
def materialise_snapshot (vm : Dict) (root : Xml) : Xml :=
  pruneShapes vm (rftElem root)

mutual
/-- An element hits when its own `id` attribute is in `target_ids` (Python's
`el.get("id") in target_ids`; a missing attribute gives `None`, never in a
set of strings) or any child subtree hits — the `collect` helper of
`drop_shapes` (`split_anim.py` lines 198-205). -/
def hitElem (targets : List String) : Xml → Bool
  | .elem _ a cs =>
      (match attrsLookup a "id" with
       | some s => decide (s ∈ targets)
       | none => false) || hitList targets cs

def hitList (targets : List String) : List Xml → Bool
  | [] => false
  | c :: cs => hitElem targets c || hitList targets cs
end

/-- `drop_shapes(slide, target_ids)` (`split_anim.py` lines 192-212),
observed on the slide's `spTree`: `collect` puts into `trash` every element
whose subtree contains a hit — including the `spTree` root itself whenever
any hit exists — and the removal loop detaches each such element from its
parent.  Detaching the root from `p:cSld` removes the whole shape tree, and
the removals inside the detached subtree are then unobservable; with no hit,
`trash` is empty and nothing changes.  `none` below stands for "the `spTree`
was detached from the slide". -/
def drop_shapes (targets : List String) (spTree : Xml) : Option Xml :=
  if hitElem targets spTree then none else some spTree

/-- Python `str(x)` on an optional attribute value. -/
def pyStr (o : Option String) : String :=
  match o with
  | some s => s
  | none => "None"

/-- `_drop_shapes(slide, ids)` (`pptx_split_anim_inout.py` lines 246-250):
iterate the slide's top-level shape elements and remove those whose own
`id` attribute (via `str(shp.element.get("id"))`) is in `ids`.  Shape
elements carry no `id` attribute — it lives on the nested `cNvPr` — so the
test compares `"None"` against the spid strings. -/
def dropShapesInout (ids : List String) (spTree : Xml) : Xml :=
  match spTree with
  | .elem t a cs =>
      .elem t a (cs.filter (fun c =>
        if c.tag ∈ shapeTags ∧ pyStr (xmlAttr c "id") ∈ ids then false else true))

mutual
/-- Every element of a subtree, root first, in document order. -/
def allElems : Xml → List Xml
  | .elem t a cs => .elem t a cs :: allElemsL cs

def allElemsL : List Xml → List Xml
  | [] => []
  | c :: cs => allElems c ++ allElemsL cs
end

/-! ## Id allocation (`new.py` lines 45-47 and 177-233)

`next_numeric_id(existing, prefix)` strips every non-digit from each existing
id (`re.sub(r"\D", "", s)`), ignores ids with no digit at all, and returns
`prefix` followed by the maximum extracted number plus one.  An id is
modelled by that numeric observable (`none` for an id with no digits): two
equal id strings have equal observables, and the produced string
`prefix + str(n)` has observable `n`, so distinct observables mean distinct
strings and no collision. -/

abbrev IdNum := Option Nat

/-- `max(nums, default=0)` over the extracted digit values. -/
def maxNums (l : List IdNum) : Nat :=
  (l.filterMap id).foldr max 0

/-- The number carried by the id `next_numeric_id` builds. -/
def next_numeric_id (existing : List IdNum) : Nat :=
  maxNums existing + 1

/-- Repeated relationship-id allocation (`new.py` lines 219-227): each new id
is `next_numeric_id(relinfo.keys(), "rId")` and is inserted into `relinfo`
before the next allocation. -/
def relAllocRun (existing : List IdNum) : Nat → List Nat
  | 0 => []
  | n + 1 =>
      let newId := next_numeric_id existing
      newId :: relAllocRun (existing ++ [some newId]) n

/-- Counter-style allocation for slide part numbers and slide-list ids
(`new.py` lines 210 and 229): a counter incremented before each use.  The
seeds the code computes are `seedSlideNum` (the relationship scan of lines
177-183) and `seedSldId` (the slide-id-list maximum of line 184). -/
def counterAllocRun (seed : Nat) : Nat → List Nat
  | 0 => []
  | n + 1 => (seed + 1) :: counterAllocRun (seed + 1) n

/-- Python `str.endswith(suf)`. -/
def endsWithStr (s suf : String) : Bool :=
  suf.toList.isSuffixOf s.toList

/-- The regex `r"/slide(\d+)\.xml$"` of `new.py` line 180 applied to a
relationship target: the digit run between a final `/slide` and the trailing
`.xml`, when the target has that shape. -/
def slideNum? (tgt : String) : Option Nat :=
  match tgt.toList.reverse with
  | 'l' :: 'm' :: 'x' :: '.' :: rest =>
      let digs := rest.takeWhile Char.isDigit
      if digs.isEmpty then none
      else
        match rest.dropWhile Char.isDigit with
        | 'e' :: 'd' :: 'i' :: 'l' :: 's' :: '/' :: _ => digitsToNatAux 0 digs.reverse
        | _ => none
  | _ => none

/-- One step of the `max_slide_num` seeding loop (`new.py` lines 178-183):
only relationships whose type ends in `/slide` and whose target matches the
slide-number pattern raise the maximum. -/
def seedStep (m : Nat) (e : String × String) : Nat :=
  if endsWithStr e.2 "/slide" then
    match slideNum? e.1 with
    | some v => max m v
    | none => m
  else m

/-- `max_slide_num` as `main` seeds it (`new.py` lines 177-183): the maximum
slide number among the slide-typed relationship targets of
`presentation.xml.rels` — not over the slide parts present in the archive,
so an unreferenced `slideN.xml` part does not raise the seed. -/
def seedSlideNum (rels : List (String × String)) : Nat :=
  rels.foldl seedStep 0

/-- `max_sldId = max(int(el.get("id")) for el in sldIdLst)` (`new.py` line
184).  The fold agrees with Python's `max` on every non-empty list; on an
empty slide-id list the Python call raises and the run aborts. -/
def seedSldId (ids : List Nat) : Nat :=
  ids.foldl max 0

/-! ## Package store and the write set of `main` (`new.py` lines 154-243)

`main` extracts the archive to a directory, rewrites files in place, and
re-zips every file.  The part set is a path-indexed store; a path is its
segment list (`["ppt", "slides", "slide1.xml"]`).  Contents are opaque
(`Bytes := Nat`): which bytes are written does not matter for the frame
property, only where `main` writes.  The writes, in program order:

  * each visited slide part `ppt/slides/<name>` is rewritten (lines 198-206);
  * each new snapshot part `ppt/slides/slide<n>.xml` is written and, when
    the source slide has a rels file, `ppt/slides/_rels/slide<n>.xml.rels`
    is copied (lines 210-216);
  * finally `ppt/presentation.xml` and `ppt/_rels/presentation.xml.rels`
    are rewritten (lines 235-236). -/

abbrev PPath := List String
abbrev Bytes := Nat
abbrev Store := List (PPath × Bytes)

def readPart (st : Store) (p : PPath) : Option Bytes :=
  match st with
  | [] => none
  | (q, b) :: r => if q = p then some b else readPart r p

/-- Upsert a part: overwrite an existing file or create a new one. -/
def write_part (st : Store) (p : PPath) (b : Bytes) : Store :=
  match st with
  | [] => [(p, b)]
  | (q, b') :: r => if q = p then (p, b) :: r else (q, b') :: write_part r p b

/-- What `main` does to one visited slide, with the decisions already made:
its part name, the bytes of each written snapshot and whether the source
rels file exists. -/
structure SlideJob where
  name : String
  content0 : Bytes
  extras : List Bytes
  hasRels : Bool
  relsBytes : Bytes

/-- One iteration of the snapshot loop (`new.py` lines 209-216): bump
`max_slide_num`, write the new slide part and, when the source has a rels
file, copy it beside the new part. -/
def extraStep (hasRels : Bool) (relsBytes : Bytes) (a : Store × Nat) (b : Bytes) :
    Store × Nat :=
  let n := a.2 + 1
  let nm := "slide" ++ toString n ++ ".xml"
  let st := write_part a.1 ["ppt", "slides", nm] b
  let st := if hasRels
    then write_part st ["ppt", "slides", "_rels", nm ++ ".rels"] relsBytes
    else st
  (st, n)

/-- The writes of one iteration of the slide loop; `num` is `max_slide_num`. -/
def processSlide (acc : Store × Nat) (job : SlideJob) : Store × Nat :=
  job.extras.foldl (extraStep job.hasRels job.relsBytes)
    (write_part acc.1 ["ppt", "slides", job.name] job.content0, acc.2)

/-- The full write set of one conversion run. -/
def mainRun (st0 : Store) (maxSlideNum : Nat) (jobs : List SlideJob)
    (presBytes presRelsBytes : Bytes) : Store :=
  let res := jobs.foldl processSlide (st0, maxSlideNum)
  write_part (write_part res.1 ["ppt", "presentation.xml"] presBytes)
    ["ppt", "_rels", "presentation.xml.rels"] presRelsBytes

/-- A deck-level manifest part: the two files `main` rewrites at the end. -/
def isManifestPath (p : PPath) : Prop :=
  p = ["ppt", "presentation.xml"] ∨ p = ["ppt", "_rels", "presentation.xml.rels"]

/-- A part under the slides directory (slide parts and per-slide rels). -/
def underSlides (p : PPath) : Bool :=
  match p with
  | "ppt" :: "slides" :: _ => true
  | _ => false

/-- A shape element for the demonstration trees: its id sits on the `cNvPr`
inside the non-visual properties, as in a real slide. -/
def demoShape (i : String) : Xml :=
  .elem "sp" []
    [.elem "nvSpPr" [] [.elem "cNvPr" [("id", i)] []],
     .elem "spPr" [] []]

/-- A shape tree with two top-level shapes, ids 1 and 2. -/
def demoSpTree : Xml :=
  .elem "spTree" [] [demoShape "1", demoShape "2"]

/-- A slide whose shape tree nests shape 3 next to a group (id 4) holding
shapes 5 and 6, plus a timing subtree. -/
def demoGroup : Xml :=
  .elem "grpSp" []
    [.elem "nvGrpSpPr" [] [.elem "cNvPr" [("id", "4")] []],
     demoShape "5",
     demoShape "6"]

def demoSlide : Xml :=
  .elem "sld" []
    [.elem "cSld" [] [.elem "spTree" [] [demoShape "3", demoGroup]],
     .elem "timing" [] [.elem "cTn" [] []]]

/-! ## Claim theorems -/

/-- C1: for a slide with shape-id universe `{1, 2, 3}` and classifier output
`(step 0, shape 2, visible)` then `(step 1, shape 3, hidden)`, the state
machine emits exactly the snapshots `[{1:T, 2:F, 3:T}, {1:T, 2:T, 3:T},
{1:T, 2:T, 3:F}]`, and the splicer writes three slide parts for that slide
in that order — the rewritten source part plus the next two allocated part
names — whose slide-list entries sit contiguously right after the source
entry. -/
theorem timeline_concrete_scenario :
    build_snapshots [1, 2, 3] [(0, 2, true), (1, 3, false)] =
      [[(1, true), (2, false), (3, true)],
       [(1, true), (2, true), (3, true)],
       [(1, true), (2, true), (3, false)]] ∧
    timelineSlideParts "slide1.xml" 1
        ((build_snapshots [1, 2, 3] [(0, 2, true), (1, 3, false)]).length - 1) =
      ["slide1.xml", "slide2.xml", "slide3.xml"] ∧
    timelineSlideList ["a", "src", "b"] 1 ["new1", "new2"] =
      ["a", "src", "new1", "new2", "b"] := by
  refine ⟨by decide, by decide, by decide⟩

/-! ### Snapshot count (C2) -/

theorem replayLoop_fst_length (evs : List TEvent) :
    ∀ st c, ((replayLoop st c evs).1).length = changes c evs := by
  induction evs with
  | nil => intro st c; simp [replayLoop, changes]
  | cons e r ih =>
      intro st c
      obtain ⟨s, spid, vis⟩ := e
      simp only [replayLoop, changes, List.length_append]
      rw [ih]
      split <;> simp

theorem changes_eq_natChanges (evs : List TEvent) :
    ∀ p : Nat, changes (p : Int) evs = natChanges p (evs.map (fun e => e.1)) := by
  induction evs with
  | nil => intro p; simp [changes, natChanges]
  | cons e r ih =>
      intro p
      obtain ⟨s, spid, vis⟩ := e
      simp only [changes, natChanges, List.map_cons]
      rw [ih]
      congr 1
      have hne : ((s : Int) ≠ (p : Int)) ↔ (s ≠ p) := by
        constructor
        · intro h hc; exact h (by exact_mod_cast hc)
        · intro h hc; exact h (by exact_mod_cast hc)
      have hm1 : (p : Int) ≠ -1 := by omega
      by_cases h : s = p
      · subst h; simp
      · simp [h, hne, hm1]

theorem natChanges_card (l : List Nat) :
    ∀ p : Nat, List.Pairwise (· ≤ ·) (p :: l) →
      natChanges p l + 1 = (p :: l).toFinset.card := by
  induction l with
  | nil => intro p _; simp [natChanges]
  | cons s r ih =>
      intro p hp
      have hps : p ≤ s := (List.pairwise_cons.mp hp).1 s (by simp)
      have hsr : List.Pairwise (· ≤ ·) (s :: r) := (List.pairwise_cons.mp hp).2
      have hs_le : ∀ x ∈ r, s ≤ x := (List.pairwise_cons.mp hsr).1
      by_cases hsp : s = p
      · subst hsp
        have h1 := ih s hsr
        have h2 : (s :: s :: r).toFinset = (s :: r).toFinset := by
          simp [List.toFinset_cons, Finset.insert_idem]
        rw [h2]
        simp only [natChanges]
        rw [if_neg (fun h => h rfl)]
        omega
      · have hpn : p ∉ (s :: r).toFinset := by
          simp only [List.toFinset_cons, Finset.mem_insert, List.mem_toFinset]
          rintro (h | h)
          · exact hsp h.symm
          · exact hsp (le_antisymm (hs_le p h) hps)
        have h1 := ih s hsr
        have h2 : (p :: s :: r).toFinset = insert p ((s :: r).toFinset) := by simp
        rw [h2, Finset.card_insert_of_not_mem hpn]
        simp only [natChanges]
        rw [if_pos hsp]
        omega

/-- C2 (amended): on a slide whose classifier events are listed in ascending
step order — the precondition `build_snapshots` documents for its input —
timeline mode with `k` distinct step keys emits exactly `k + 1` snapshots,
and a slide with zero events yields the single all-visible snapshot.  The
unrestricted claim fails: the classifier emits serials in document order, so
interleaved containers produce an unsorted list and extra snapshots (see the
counterexample). -/
theorem timeline_snapshot_count (shapes : List Int) (events : List TEvent)
    (hsorted : List.Pairwise (· ≤ ·) (events.map (fun e => e.1))) :
    (timelineSnapshots shapes events).length =
      (events.map (fun e => e.1)).toFinset.card + 1 ∧
    (events = [] → timelineSnapshots shapes events = [initState shapes]) ∧
    (∀ s ∈ shapes, dictLookup (initState shapes) s = some true) := by
  refine ⟨?_, ?_, ?_⟩
  · cases events with
    | nil => simp [timelineSnapshots]
    | cons e r =>
        obtain ⟨s, spid, vis⟩ := e
        have ht : timelineSnapshots shapes ((s, spid, vis) :: r)
            = build_snapshots shapes ((s, spid, vis) :: r) := by
          simp [timelineSnapshots]
        have hlen : (build_snapshots shapes ((s, spid, vis) :: r)).length
            = changes (-1) ((s, spid, vis) :: r) + 2 := by
          simp [build_snapshots, replayLoop_fst_length]
        have h0 : changes (-1) ((s, spid, vis) :: r) = changes (s : Int) r := by
          simp [changes]
        have h1 : changes (s : Int) r = natChanges s (r.map (fun e => e.1)) :=
          changes_eq_natChanges r s
        have hcard := natChanges_card (r.map (fun e => e.1)) s
          (by simpa using hsorted)
        rw [ht, hlen, h0, h1]
        simp only [List.map_cons]
        omega
  · intro h; subst h; simp [timelineSnapshots]
  · intro s hs
    induction shapes with
    | nil => cases hs
    | cons a l ih =>
        simp only [initState, List.map_cons, dictLookup]
        by_cases h : a = s
        · simp [h]
        · simp only [if_neg h]
          exact ih (by cases hs with
            | head => exact absurd rfl h
            | tail _ h' => exact h')

/-- Witness for C2: the concrete scenario has two distinct steps and three
snapshots; its event list is sorted, discharging the precondition. -/
theorem timeline_snapshot_count_witness :
    (timelineSnapshots [1, 2, 3] [(0, 2, true), (1, 3, false)]).length =
      (([(0, 2, true), (1, 3, false)] : List TEvent).map (fun e => e.1)).toFinset.card + 1 :=
  (timeline_snapshot_count [1, 2, 3] [(0, 2, true), (1, 3, false)] (by decide)).1

/-- C2 counterexample to the unrestricted claim: on `cvDemo` — a legal slide
whose first and third visibility-set nodes share a container with another
container's node between them — the classifier emits the unsorted serial
sequence `0, 1, 0` (k = 2 distinct step keys) and `main` feeds it to
`build_snapshots` unsorted, which then emits 4 snapshots, not `k + 1 = 3`. -/
theorem timeline_snapshot_count_counterexample :
    collect_visibility_events cvDemo = [(0, 2, true), (1, 3, false), (0, 4, true)] ∧
    ((collect_visibility_events cvDemo).map (fun e => e.1)).toFinset.card = 2 ∧
    (timelineSnapshots [2, 3, 4] (collect_visibility_events cvDemo)).length = 4 ∧
    (timelineSnapshots [2, 3, 4] (collect_visibility_events cvDemo)).length ≠
      ((collect_visibility_events cvDemo).map (fun e => e.1)).toFinset.card + 1 := by
  refine ⟨by decide, by decide, by decide, by decide⟩

/-! ### Snapshot 0 (C3) -/

theorem dictLookup_dictSet_self (d : Dict) (k : Int) (v : Bool) :
    dictLookup (dictSet d k v) k = some v := by
  induction d with
  | nil => simp [dictSet, dictLookup]
  | cons p r ih =>
      obtain ⟨k', v'⟩ := p
      by_cases h : k' = k
      · simp [dictSet, dictLookup, h]
      · simp [dictSet, dictLookup, h, ih]

theorem dictLookup_dictSet_ne (d : Dict) (k k' : Int) (v : Bool) (h : k' ≠ k) :
    dictLookup (dictSet d k v) k' = dictLookup d k' := by
  induction d with
  | nil =>
      simp only [dictSet, dictLookup]
      rw [if_neg (fun hc : k = k' => h hc.symm)]
  | cons p r ih =>
      obtain ⟨a, b⟩ := p
      by_cases ha : a = k
      · rw [show dictSet ((a, b) :: r) k v = (k, v) :: r by simp [dictSet, ha]]
        simp only [dictLookup]
        rw [if_neg (fun hc : k = k' => h hc.symm),
          if_neg (fun hc : a = k' => h (hc.symm.trans ha))]
      · simp only [dictSet, if_neg ha, dictLookup]
        by_cases hb : a = k'
        · simp [hb]
        · simp [hb, ih]

theorem firstChangePass_mem_seen (evs : List TEvent) :
    ∀ st seen spid, spid ∈ seen →
      dictLookup (firstChangePass st seen evs) spid = dictLookup st spid := by
  induction evs with
  | nil => intro st seen spid _; simp [firstChangePass]
  | cons e r ih =>
      intro st seen spid hmem
      obtain ⟨s, sp, v⟩ := e
      by_cases h : sp ∈ seen
      · simp only [firstChangePass, if_pos h]
        exact ih st seen spid hmem
      · simp only [firstChangePass, if_neg h]
        have hne : spid ≠ sp := fun hc => h (hc ▸ hmem)
        rw [ih _ _ spid (List.mem_cons_of_mem _ hmem)]
        by_cases hv : v = true
        · simp only [hv, if_pos rfl]
          exact dictLookup_dictSet_ne st sp spid false hne
        · simp [hv]

theorem firstChangePass_first_true (evs : List TEvent) :
    ∀ st seen spid ev, spid ∉ seen → firstEventFor spid evs = some ev →
      ev.2.2 = true →
      dictLookup (firstChangePass st seen evs) spid = some false := by
  induction evs with
  | nil => intro st seen spid ev _ hf; simp [firstEventFor] at hf
  | cons e r ih =>
      intro st seen spid ev hseen hf hv
      obtain ⟨s, sp, v⟩ := e
      by_cases hsp : sp = spid
      · subst hsp
        have hev : ev = (s, sp, v) := by
          simp [firstEventFor, List.find?] at hf
          exact hf.symm
        subst hev
        simp only at hv
        subst hv
        simp only [firstChangePass, if_neg hseen, if_pos rfl]
        rw [firstChangePass_mem_seen r _ _ sp (List.mem_cons_self _ _)]
        exact dictLookup_dictSet_self st sp false
      · have hf' : firstEventFor spid r = some ev := by
          simpa [firstEventFor, List.find?, hsp] using hf
        by_cases h : sp ∈ seen
        · simp only [firstChangePass, if_pos h]
          exact ih st seen spid ev hseen hf' hv
        · simp only [firstChangePass, if_neg h]
          have hseen' : spid ∉ sp :: seen := by
            intro hc
            rcases List.mem_cons.mp hc with hc | hc
            · exact hsp hc.symm
            · exact hseen hc
          exact ih _ _ spid ev hseen' hf' hv

theorem firstChangePass_first_false (evs : List TEvent) :
    ∀ st seen spid ev, spid ∉ seen → firstEventFor spid evs = some ev →
      ev.2.2 = false →
      dictLookup (firstChangePass st seen evs) spid = dictLookup st spid := by
  induction evs with
  | nil => intro st seen spid ev _ hf; simp [firstEventFor] at hf
  | cons e r ih =>
      intro st seen spid ev hseen hf hv
      obtain ⟨s, sp, v⟩ := e
      by_cases hsp : sp = spid
      · subst hsp
        have hev : ev = (s, sp, v) := by
          simp [firstEventFor, List.find?] at hf
          exact hf.symm
        subst hev
        simp only at hv
        subst hv
        simp only [firstChangePass, if_neg hseen]
        simp only [Bool.false_eq_true, if_false]
        exact firstChangePass_mem_seen r st _ sp (List.mem_cons_self _ _)
      · have hf' : firstEventFor spid r = some ev := by
          simpa [firstEventFor, List.find?, hsp] using hf
        by_cases h : sp ∈ seen
        · simp only [firstChangePass, if_pos h]
          exact ih st seen spid ev hseen hf' hv
        · simp only [firstChangePass, if_neg h]
          have hseen' : spid ∉ sp :: seen := by
            intro hc
            rcases List.mem_cons.mp hc with hc | hc
            · exact hsp hc.symm
            · exact hseen hc
          rw [ih _ _ spid ev hseen' hf' hv]
          by_cases hvv : v = true
          · simp only [hvv, if_pos rfl]
            exact dictLookup_dictSet_ne st sp spid false (fun hc => hsp hc.symm)
          · simp [hvv]

theorem firstChangePass_no_event (evs : List TEvent) :
    ∀ st seen spid, firstEventFor spid evs = none →
      dictLookup (firstChangePass st seen evs) spid = dictLookup st spid := by
  induction evs with
  | nil => intro st seen spid _; simp [firstChangePass]
  | cons e r ih =>
      intro st seen spid hf
      obtain ⟨s, sp, v⟩ := e
      have hsp : sp ≠ spid := by
        intro hc
        simp [firstEventFor, List.find?, hc] at hf
      have hf' : firstEventFor spid r = none := by
        simpa [firstEventFor, List.find?, hsp] using hf
      by_cases h : sp ∈ seen
      · simp only [firstChangePass, if_pos h]
        exact ih st seen spid hf'
      · simp only [firstChangePass, if_neg h]
        rw [ih _ _ spid hf']
        by_cases hvv : v = true
        · simp only [hvv, if_pos rfl]
          exact dictLookup_dictSet_ne st sp spid false (fun hc => hsp hc.symm)
        · simp [hvv]

/-- Lookup in the fresh all-visible state. -/
theorem initState_lookup (shapes : List Int) (s : Int) (hs : s ∈ shapes) :
    dictLookup (initState shapes) s = some true := by
  induction shapes with
  | nil => cases hs
  | cons a l ih =>
      simp only [initState, List.map_cons, dictLookup]
      by_cases h : a = s
      · simp [h]
      · simp only [if_neg h]
        exact ih (by
          cases hs with
          | head => exact absurd rfl h
          | tail _ h' => exact h')

/-- C3 (amended): the `first_change` loop reads the events in the
classifier's emission (document) order, so in snapshot 0 a shape whose first
*listed* event makes it visible starts hidden, a shape whose first listed
event hides it starts visible, and a shape with no events starts visible —
for every event list, sorted or not.  The original claim's "first event in
step order" fails on unsorted classifier output (see the counterexample). -/
theorem entrance_starts_hidden (shapes : List Int) (events : List TEvent) (spid : Int) :
    (∀ ev, firstEventFor spid events = some ev → ev.2.2 = true →
      dictLookup ((build_snapshots shapes events).headD []) spid = some false) ∧
    (∀ ev, firstEventFor spid events = some ev → ev.2.2 = false → spid ∈ shapes →
      dictLookup ((build_snapshots shapes events).headD []) spid = some true) ∧
    (firstEventFor spid events = none → spid ∈ shapes →
      dictLookup ((build_snapshots shapes events).headD []) spid = some true) := by
  have hhead : (build_snapshots shapes events).headD []
      = firstChangePass (initState shapes) [] events := by
    simp [build_snapshots]
  refine ⟨?_, ?_, ?_⟩
  · intro ev hf hv
    rw [hhead]
    exact firstChangePass_first_true events _ [] spid ev (by simp) hf hv
  · intro ev hf hv hs
    rw [hhead, firstChangePass_first_false events _ [] spid ev (by simp) hf hv]
    exact initState_lookup shapes spid hs
  · intro hf hs
    rw [hhead, firstChangePass_no_event events _ [] spid hf]
    exact initState_lookup shapes spid hs

/-- Witness for C3: all three cases at the concrete scenario — shape 2's
first event shows it (hidden in snapshot 0), shape 3's first event hides it
(still visible in snapshot 0), and shape 1 has no event (visible). -/
theorem entrance_starts_hidden_witness :
    dictLookup ((build_snapshots [1, 2, 3] [(0, 2, true), (1, 3, false)]).headD []) 2 =
      some false ∧
    dictLookup ((build_snapshots [1, 2, 3] [(0, 2, true), (1, 3, false)]).headD []) 3 =
      some true ∧
    dictLookup ((build_snapshots [1, 2, 3] [(0, 2, true), (1, 3, false)]).headD []) 1 =
      some true := by
  refine ⟨?_, ?_, ?_⟩
  · exact (entrance_starts_hidden [1, 2, 3] [(0, 2, true), (1, 3, false)]
      2).1 (0, 2, true) (by decide) rfl
  · exact (entrance_starts_hidden [1, 2, 3] [(0, 2, true), (1, 3, false)]
      3).2.1 (1, 3, false) (by decide) rfl (by decide)
  · exact (entrance_starts_hidden [1, 2, 3] [(0, 2, true), (1, 3, false)]
      1).2.2 (by decide) (by decide)

/-- C3 counterexample to the step-order reading: with classifier output
`[(0, 5, visible), (1, 7, hidden), (0, 7, visible)]` — unsorted, as
interleaved containers produce — shape 7 has an event at step 0, its least
step key, and every step-0 event targeting it sets it visible, so its first
event in step order is an entrance; yet the code takes the first *listed*
event `(1, 7, hidden)` and leaves shape 7 visible in snapshot 0. -/
theorem entrance_starts_hidden_counterexample :
    (((0 : Nat), (7 : Int), true) : TEvent)
      ∈ ([(0, 5, true), (1, 7, false), (0, 7, true)] : List TEvent) ∧
    (∀ e ∈ ([(0, 5, true), (1, 7, false), (0, 7, true)] : List TEvent),
      e.2.1 = 7 → e.1 = 0 → e.2.2 = true) ∧
    dictLookup ((build_snapshots [5, 7]
      [(0, 5, true), (1, 7, false), (0, 7, true)]).headD []) 7 = some true := by
  refine ⟨by decide, by decide, by decide⟩

/-! ### Step-key assignment (C4) -/

theorem keySerials_length (ks : List Nat) : ∀ n, (keySerials n ks).length = ks.length := by
  induction ks with
  | nil => intro n; simp [keySerials]
  | cons k ks ih => intro n; simp [keySerials, ih]

theorem serialLookup_keySerials (ks : List Nat) :
    ∀ n k, serialLookup (keySerials n ks) k
      = if k ∈ ks then some (n + idx k ks) else none := by
  induction ks with
  | nil => intro n k; simp [keySerials, serialLookup]
  | cons a ks ih =>
      intro n k
      simp only [keySerials, serialLookup]
      by_cases h : a = k
      · simp [h, idx]
      · rw [if_neg h, ih (n + 1) k]
        by_cases hm : k ∈ ks
        · rw [if_pos hm, if_pos (List.mem_cons_of_mem _ hm)]
          have hx : idx k (a :: ks) = idx k ks + 1 := by simp [idx, h]
          rw [hx]
          congr 1
          omega
        · rw [if_neg hm, if_neg (by
            intro hc
            rcases List.mem_cons.mp hc with hc | hc
            · exact h hc.symm
            · exact hm hc)]

theorem keySerials_append (ks : List Nat) :
    ∀ n k, keySerials n (ks ++ [k]) = keySerials n ks ++ [(k, n + ks.length)] := by
  induction ks with
  | nil => intro n k; simp [keySerials]
  | cons a ks ih =>
      intro n k
      have h1 : n + (ks.length + 1) = n + 1 + ks.length := by omega
      show (a, n) :: keySerials (n + 1) (ks ++ [k])
        = (a, n) :: keySerials (n + 1) ks ++ [(k, n + (ks.length + 1))]
      rw [ih (n + 1) k, h1]
      rfl

theorem firstSeenFrom_append (l : List Nat) :
    ∀ acc, ∃ b, firstSeenFrom acc l = acc ++ b := by
  induction l with
  | nil => intro acc; exact ⟨[], by simp [firstSeenFrom]⟩
  | cons a l ih =>
      intro acc
      by_cases h : a ∈ acc
      · simpa [firstSeenFrom, h] using ih acc
      · obtain ⟨b, hb⟩ := ih (acc ++ [a])
        exact ⟨[a] ++ b, by simp [firstSeenFrom, h, hb]⟩

theorem idx_append_of_mem (A : List Nat) :
    ∀ B k, k ∈ A → idx k (A ++ B) = idx k A := by
  induction A with
  | nil => intro B k hk; cases hk
  | cons a A ih =>
      intro B k hk
      show idx k (a :: (A ++ B)) = idx k (a :: A)
      by_cases h : a = k
      · simp [idx, h]
      · simp only [idx, if_neg h]
        rw [ih B k (by
          cases hk with
          | head => exact absurd rfl h
          | tail _ h' => exact h')]

theorem idx_append_self (A : List Nat) (k : Nat) (h : k ∉ A) :
    idx k (A ++ [k]) = A.length := by
  induction A with
  | nil => simp [idx]
  | cons a A ih =>
      have ha : a ≠ k := fun hc => h (hc ▸ List.mem_cons_self a A)
      show idx k (a :: (A ++ [k])) = (a :: A).length
      simp only [idx, if_neg ha, List.length_cons]
      rw [ih (fun hc => h (List.mem_cons_of_mem a hc))]

theorem qualKeys_cons_some (n : SetNode) (ns : List SetNode) (ev : Int × Bool)
    (h : setEvent n = some ev) :
    qualKeys (n :: ns) = n.ctnKey :: qualKeys ns := by
  simp [qualKeys, List.filter_cons, h]

theorem qualKeys_cons_none (n : SetNode) (ns : List SetNode)
    (h : setEvent n = none) :
    qualKeys (n :: ns) = qualKeys ns := by
  simp [qualKeys, List.filter_cons, h]

theorem cveLoop_serials (ns : List SetNode) :
    ∀ A : List Nat,
      (cveLoop (keySerials 0 A) ns).map (fun e => e.1)
        = (qualKeys ns).map (fun k => idx k (firstSeenFrom A (qualKeys ns))) := by
  induction ns with
  | nil => intro A; simp [cveLoop, qualKeys]
  | cons n r ih =>
      intro A
      cases he : setEvent n with
      | none =>
          rw [qualKeys_cons_none n r he]
          simpa [cveLoop, he] using ih A
      | some ev =>
          obtain ⟨spid, vis⟩ := ev
          rw [qualKeys_cons_some n r (spid, vis) he]
          by_cases hk : n.ctnKey ∈ A
          · have hfs : firstSeenFrom A (n.ctnKey :: qualKeys r)
                = firstSeenFrom A (qualKeys r) := by
              simp [firstSeenFrom, hk]
            have hlook := serialLookup_keySerials A 0 n.ctnKey
            rw [if_pos hk] at hlook
            simp only [cveLoop, he, hlook, List.map_cons]
            rw [hfs, ih A]
            obtain ⟨B, hB⟩ := firstSeenFrom_append (qualKeys r) A
            rw [hB, idx_append_of_mem A B n.ctnKey hk]
            simp
          · have hfs : firstSeenFrom A (n.ctnKey :: qualKeys r)
                = firstSeenFrom (A ++ [n.ctnKey]) (qualKeys r) := by
              simp [firstSeenFrom, hk]
            have hlook := serialLookup_keySerials A 0 n.ctnKey
            rw [if_neg hk] at hlook
            have hnew : keySerials 0 A ++ [(n.ctnKey, (keySerials 0 A).length)]
                = keySerials 0 (A ++ [n.ctnKey]) := by
              rw [keySerials_append A 0 n.ctnKey, keySerials_length A 0]
              simp
            simp only [cveLoop, he, hlook, List.map_cons]
            rw [hnew, hfs, ih (A ++ [n.ctnKey])]
            obtain ⟨B, hB⟩ := firstSeenFrom_append (qualKeys r) (A ++ [n.ctnKey])
            rw [hB]
            rw [idx_append_of_mem (A ++ [n.ctnKey]) B n.ctnKey (by simp)]
            rw [idx_append_self A n.ctnKey hk, keySerials_length A 0]

/-- C4: the step keys emitted by `collect_visibility_events` are exactly the
first-seen indices of the qualifying nodes' enclosing containers — so two
visibility-set nodes with the same nearest enclosing `cTn` get equal step
keys, and distinct keys are consecutive integers from 0 in first-seen
container order. -/
theorem step_key_first_seen_order (nodes : List SetNode) :
    (collect_visibility_events nodes).map (fun e => e.1)
      = (qualKeys nodes).map (fun k => idx k (firstSeen (qualKeys nodes))) ∧
    (∀ i j (hi : i < (qualKeys nodes).length) (hj : j < (qualKeys nodes).length)
      (hi' : i < ((collect_visibility_events nodes).map (fun e => e.1)).length)
      (hj' : j < ((collect_visibility_events nodes).map (fun e => e.1)).length),
      (qualKeys nodes).get ⟨i, hi⟩ = (qualKeys nodes).get ⟨j, hj⟩ →
      ((collect_visibility_events nodes).map (fun e => e.1)).get ⟨i, hi'⟩
        = ((collect_visibility_events nodes).map (fun e => e.1)).get ⟨j, hj'⟩) := by
  have hmain : (collect_visibility_events nodes).map (fun e => e.1)
      = (qualKeys nodes).map (fun k => idx k (firstSeen (qualKeys nodes))) := by
    have := cveLoop_serials nodes []
    simpa [collect_visibility_events, keySerials, firstSeen] using this
  refine ⟨hmain, ?_⟩
  intro i j hi hj hi' hj' hij
  have hgi := List.get_of_eq hmain ⟨i, hi'⟩
  have hgj := List.get_of_eq hmain ⟨j, hj'⟩
  rw [hgi, hgj]
  simp only [List.get_eq_getElem, List.getElem_map]
  congr 1

/-! ### Split-mode classifier buckets (C6, C10) -/

theorem foldl_inv {α β : Type} (P : α → Prop) (step : α → β → α)
    (h : ∀ a b, P a → P (step a b)) :
    ∀ (l : List β) (a : α), P a → P (l.foldl step a) := by
  intro l
  induction l with
  | nil => intro a ha; exact ha
  | cons b r ih => intro a ha; exact ih (step a b) (h a b ha)

theorem foldl_contrib {α β : Type} (P : α → Prop) (step : α → β → α)
    (hmono : ∀ a b, P a → P (step a b)) (b : β)
    (hstep : ∀ a, P (step a b)) :
    ∀ (l : List β), b ∈ l → ∀ a, P (l.foldl step a) := by
  intro l
  induction l with
  | nil => intro hb; cases hb
  | cons x r ih =>
      intro hb a
      rcases List.mem_cons.mp hb with hb | hb
      · subst hb
        exact foldl_inv P step hmono r (step a b) (hstep a)
      · exact ih hb (step a x)

theorem addIds_subset (bucket : List String) (ids : List (Option String)) :
    bucket ⊆ addIds bucket ids :=
  List.subset_append_left _ _

theorem addIds_mem (bucket : List String) (ids : List (Option String))
    (s : String) (h : some s ∈ ids) (hne : s ≠ "") : s ∈ addIds bucket ids :=
  List.mem_append.mpr (Or.inr (List.mem_filterMap.mpr ⟨some s, h, by simp [hne]⟩))

theorem addIds_ne_empty (bucket : List String) (ids : List (Option String))
    (h : ∀ s ∈ bucket, s ≠ "") : ∀ s ∈ addIds bucket ids, s ≠ "" := by
  intro s hs
  rcases List.mem_append.mp hs with h1 | h1
  · exact h s h1
  · obtain ⟨o, _, hmap⟩ := List.mem_filterMap.mp h1
    cases o with
    | none => simp at hmap
    | some t =>
        by_cases ht : t = ""
        · simp [ht] at hmap
        · simp only [if_neg ht, Option.some.injEq] at hmap
          exact hmap ▸ ht

/-- Every pass step only ever appends to a bucket. -/
theorem passStep_mono (step : Buckets → AnimNode → Buckets)
    (hstep : step = passStep1 ∨ step = passStep2 ∨ step = passStep3 ∨
      step = passStep4 ∨ step = passStep5) (acc : Buckets) (n : AnimNode) :
    acc.1 ⊆ (step acc n).1 ∧ acc.2 ⊆ (step acc n).2 := by
  rcases hstep with h | h | h | h | h <;>
    subst h <;>
    cases n <;>
    simp only [passStep1, passStep2, passStep3, passStep4, passStep5] <;>
    (repeat' split) <;>
    first
      | exact ⟨List.Subset.refl _, List.Subset.refl _⟩
      | exact ⟨addIds_subset _ _, List.Subset.refl _⟩
      | exact ⟨List.Subset.refl _, addIds_subset _ _⟩

/-- Every pass step keeps both buckets free of empty strings. -/
theorem passStep_ne (step : Buckets → AnimNode → Buckets)
    (hstep : step = passStep1 ∨ step = passStep2 ∨ step = passStep3 ∨
      step = passStep4 ∨ step = passStep5) (acc : Buckets) (n : AnimNode)
    (h1 : ∀ s ∈ acc.1, s ≠ "") (h2 : ∀ s ∈ acc.2, s ≠ "") :
    (∀ s ∈ (step acc n).1, s ≠ "") ∧ (∀ s ∈ (step acc n).2, s ≠ "") := by
  rcases hstep with h | h | h | h | h <;>
    subst h <;>
    cases n <;>
    simp only [passStep1, passStep2, passStep3, passStep4, passStep5] <;>
    (repeat' split) <;>
    first
      | exact ⟨h1, h2⟩
      | exact ⟨addIds_ne_empty _ _ h1, h2⟩
      | exact ⟨h1, addIds_ne_empty _ _ h2⟩

/-- C10: both buckets returned by the split-mode classifier hold only
non-empty shape-id strings — `_add` filters out the falsy values (`None` from
a target with no `spid`, and the empty string). -/
theorem classifier_ids_nonempty (nodes : List AnimNode) :
    (∀ s ∈ (extract_entr_exit_ids nodes).1, s ≠ "") ∧
    (∀ s ∈ (extract_entr_exit_ids nodes).2, s ≠ "") := by
  have inv : ∀ (step : Buckets → AnimNode → Buckets),
      (step = passStep1 ∨ step = passStep2 ∨ step = passStep3 ∨
        step = passStep4 ∨ step = passStep5) →
      ∀ (ns : List AnimNode) (a : Buckets),
      ((∀ s ∈ a.1, s ≠ "") ∧ (∀ s ∈ a.2, s ≠ "")) →
      (∀ s ∈ (ns.foldl step a).1, s ≠ "") ∧ (∀ s ∈ (ns.foldl step a).2, s ≠ "") := by
    intro step hs ns a ha
    exact foldl_inv (fun acc => (∀ s ∈ acc.1, s ≠ "") ∧ (∀ s ∈ acc.2, s ≠ ""))
      step (fun a b hp => passStep_ne step hs a b hp.1 hp.2) ns a ha
  simp only [extract_entr_exit_ids, pass1, pass2, pass3, pass4, pass5]
  exact inv passStep5 (Or.inr (Or.inr (Or.inr (Or.inr rfl)))) nodes _
    (inv passStep4 (Or.inr (Or.inr (Or.inr (Or.inl rfl)))) nodes _
      (inv passStep3 (Or.inr (Or.inr (Or.inl rfl))) nodes _
        (inv passStep2 (Or.inr (Or.inl rfl)) nodes _
          (inv passStep1 (Or.inl rfl) nodes ([], []) ⟨by simp, by simp⟩))))

/-- Witness for C10: a target list holding a real id, a `None` and an empty
string contributes only the real id, which is non-empty. -/
theorem classifier_ids_nonempty_witness : ("2" : String) ≠ "" :=
  (classifier_ids_nonempty
    [AnimNode.animEffect (some "entr") none [some "2", none, some ""]]).1 "2" (by decide)

/-- C6 counterexample: the string `"0.00"` denotes zero, yet the classifier
puts the target of an opacity set with that value into the entrance bucket,
not the exit bucket — only the spellings `"0"` and `"0.0"` are recognized. -/
theorem opacity_zero_spelling_counterexample :
    decimalIsZero "0.00" = true ∧
    "7" ∈ (extract_entr_exit_ids [AnimNode.setNode ["opacity"] ["0.00"] [some "7"]]).1 ∧
    "7" ∉ (extract_entr_exit_ids [AnimNode.setNode ["opacity"] ["0.00"] [some "7"]]).2 := by
  refine ⟨by decide, by decide, by decide⟩

/-- C6 (amended): for every attribute-set node, a `style.visibility` target
value of `"hidden"` sends its (non-empty) targets to the exit bucket and any
other value to the entrance bucket; for an opacity (or vendor-prefixed
`style.opacity`) set, a target value spelled exactly `"0"` or `"0.0"` goes to
the exit bucket and any other value — including other spellings of zero — to
the entrance bucket. -/
theorem setnode_bucket_rule (nodes : List AnimNode) (attrNames toVals : List String)
    (tgts : List (Option String))
    (hmem : AnimNode.setNode attrNames toVals tgts ∈ nodes)
    (s : String) (hs : some s ∈ tgts) (hne : s ≠ "") :
    ("style.visibility" ∈ attrNames.map lowerStr → toVals.headD "" = "hidden" →
      s ∈ (extract_entr_exit_ids nodes).2) ∧
    ("style.visibility" ∈ attrNames.map lowerStr → toVals.headD "" ≠ "hidden" →
      s ∈ (extract_entr_exit_ids nodes).1) ∧
    ("style.visibility" ∉ attrNames.map lowerStr →
      ("opacity" ∈ attrNames.map lowerStr ∨ "style.opacity" ∈ attrNames.map lowerStr) →
      (toVals.headD "" = "0" ∨ toVals.headD "" = "0.0") →
      s ∈ (extract_entr_exit_ids nodes).2) ∧
    ("style.visibility" ∉ attrNames.map lowerStr →
      ("opacity" ∈ attrNames.map lowerStr ∨ "style.opacity" ∈ attrNames.map lowerStr) →
      ¬(toVals.headD "" = "0" ∨ toVals.headD "" = "0.0") →
      s ∈ (extract_entr_exit_ids nodes).1) := by
  have mono1 : ∀ (step : Buckets → AnimNode → Buckets),
      (step = passStep1 ∨ step = passStep2 ∨ step = passStep3 ∨
        step = passStep4 ∨ step = passStep5) →
      ∀ (a : Buckets) (n : AnimNode), s ∈ a.1 → s ∈ (step a n).1 :=
    fun step hstep a n h => (passStep_mono step hstep a n).1 h
  have mono2 : ∀ (step : Buckets → AnimNode → Buckets),
      (step = passStep1 ∨ step = passStep2 ∨ step = passStep3 ∨
        step = passStep4 ∨ step = passStep5) →
      ∀ (a : Buckets) (n : AnimNode), s ∈ a.2 → s ∈ (step a n).2 :=
    fun step hstep a n h => (passStep_mono step hstep a n).2 h
  have through45_1 : ∀ a : Buckets,
      s ∈ a.1 → s ∈ (nodes.foldl passStep5 (nodes.foldl passStep4 a)).1 := by
    intro a h
    exact foldl_inv (fun acc => s ∈ acc.1) passStep5
      (mono1 passStep5 (Or.inr (Or.inr (Or.inr (Or.inr rfl))))) nodes _
      (foldl_inv (fun acc => s ∈ acc.1) passStep4
        (mono1 passStep4 (Or.inr (Or.inr (Or.inr (Or.inl rfl))))) nodes a h)
  have through45_2 : ∀ a : Buckets,
      s ∈ a.2 → s ∈ (nodes.foldl passStep5 (nodes.foldl passStep4 a)).2 := by
    intro a h
    exact foldl_inv (fun acc => s ∈ acc.2) passStep5
      (mono2 passStep5 (Or.inr (Or.inr (Or.inr (Or.inr rfl))))) nodes _
      (foldl_inv (fun acc => s ∈ acc.2) passStep4
        (mono2 passStep4 (Or.inr (Or.inr (Or.inr (Or.inl rfl))))) nodes a h)
  simp only [extract_entr_exit_ids, pass1, pass2, pass3, pass4, pass5]
  refine ⟨?_, ?_, ?_, ?_⟩
  · intro hvis hhid
    refine through45_2 _ ?_
    refine foldl_contrib (fun acc => s ∈ acc.2) passStep3
      (mono2 passStep3 (Or.inr (Or.inr (Or.inl rfl))))
      (AnimNode.setNode attrNames toVals tgts) ?_ nodes hmem _
    intro a
    simp only [passStep3]
    rw [if_pos hvis, if_pos hhid]
    exact addIds_mem _ _ s hs hne
  · intro hvis hhid
    refine through45_1 _ ?_
    refine foldl_contrib (fun acc => s ∈ acc.1) passStep3
      (mono1 passStep3 (Or.inr (Or.inr (Or.inl rfl))))
      (AnimNode.setNode attrNames toVals tgts) ?_ nodes hmem _
    intro a
    simp only [passStep3]
    rw [if_pos hvis, if_neg hhid]
    exact addIds_mem _ _ s hs hne
  · intro hvis hop hzero
    refine through45_2 _ ?_
    refine foldl_contrib (fun acc => s ∈ acc.2) passStep3
      (mono2 passStep3 (Or.inr (Or.inr (Or.inl rfl))))
      (AnimNode.setNode attrNames toVals tgts) ?_ nodes hmem _
    intro a
    simp only [passStep3]
    rw [if_neg hvis, if_pos hop, if_pos hzero]
    exact addIds_mem _ _ s hs hne
  · intro hvis hop hzero
    refine through45_1 _ ?_
    refine foldl_contrib (fun acc => s ∈ acc.1) passStep3
      (mono1 passStep3 (Or.inr (Or.inr (Or.inl rfl))))
      (AnimNode.setNode attrNames toVals tgts) ?_ nodes hmem _
    intro a
    simp only [passStep3]
    rw [if_neg hvis, if_pos hop, if_neg hzero]
    exact addIds_mem _ _ s hs hne

/-- Witness for C6 (amended): one opacity set with value `"0"` and one
visibility set with value `"hidden"` both send their target to the exit
bucket. -/
theorem setnode_bucket_rule_witness :
    ("8" : String) ∈ (extract_entr_exit_ids
      [AnimNode.setNode ["opacity"] ["0"] [some "8"]]).2 ∧
    ("9" : String) ∈ (extract_entr_exit_ids
      [AnimNode.setNode ["style.visibility"] ["hidden"] [some "9"]]).2 := by
  constructor
  · exact (setnode_bucket_rule [AnimNode.setNode ["opacity"] ["0"] [some "8"]]
      ["opacity"] ["0"] [some "8"] (by decide) "8" (by decide) (by decide)).2.2.1
      (by decide) (by decide) (by decide)
  · exact (setnode_bucket_rule
      [AnimNode.setNode ["style.visibility"] ["hidden"] [some "9"]]
      ["style.visibility"] ["hidden"] [some "9"] (by decide) "9" (by decide)
      (by decide)).1 (by decide) (by decide)

/-- Witness for C4: on `cvDemo`, the first and third nodes share their
container, so their emitted events carry equal step keys. -/
theorem step_key_first_seen_order_witness :
    ((collect_visibility_events cvDemo).map (fun e => e.1)).get ⟨0, by decide⟩
      = ((collect_visibility_events cvDemo).map (fun e => e.1)).get ⟨2, by decide⟩ :=
  (step_key_first_seen_order cvDemo).2 0 2 (by decide) (by decide) (by decide)
    (by decide) (by decide)

/-! ### Split mode drop behaviour (C5) -/

/-- C5 evidence: take a slide with top-level shapes 1 and 2 where only shape
2 is classified (entrance, say).  Split complementarity demands that the
slide keeping `{"2"}` dropped retains shape 1 and loses shape 2.  Instead,
`drop_shapes` (`split_anim.py`) marks every ancestor of the matched `cNvPr` —
including the `spTree` root, which carries no id — and detaches it, so the
whole shape tree (shape 1 included) vanishes; and `_drop_shapes`
(`pptx_split_anim_inout.py`) compares the spid against the shape element's
own `id` attribute, which does not exist (`str(None) = "None"`), so nothing
is ever removed and shape 2 stays. -/
theorem split_mode_drop_shapes_bug :
    drop_shapes ["2"] demoSpTree = none ∧
    dropShapesInout ["2"] demoSpTree = demoSpTree := by
  exact ⟨rfl, rfl⟩

/-! ### Id allocation (C8) -/

theorem counterAllocRun_length (n : Nat) :
    ∀ seed, (counterAllocRun seed n).length = n := by
  induction n with
  | zero => intro seed; rfl
  | succ n ih => intro seed; simp [counterAllocRun, ih]

theorem counterAllocRun_get (n : Nat) :
    ∀ seed i (hi : i < (counterAllocRun seed n).length),
      (counterAllocRun seed n)[i] = seed + i + 1 := by
  induction n with
  | zero => intro seed i hi; rw [counterAllocRun_length] at hi; omega
  | succ n ih =>
      intro seed i hi
      simp only [counterAllocRun]
      cases i with
      | zero => simp
      | succ i =>
          rw [List.getElem_cons_succ]
          rw [ih (seed + 1) i (by
            rw [counterAllocRun_length]
            rw [counterAllocRun_length] at hi
            omega)]
          omega

theorem maxNums_cons_none (l : List IdNum) : maxNums (none :: l) = maxNums l := by
  simp [maxNums, List.filterMap_cons]

theorem maxNums_cons_some (x : Nat) (l : List IdNum) :
    maxNums (some x :: l) = max x (maxNums l) := by
  simp [maxNums, List.filterMap_cons]

theorem maxNums_append (l1 l2 : List IdNum) :
    maxNums (l1 ++ l2) = max (maxNums l1) (maxNums l2) := by
  induction l1 with
  | nil => simp [maxNums]
  | cons a l ih =>
      cases a with
      | none => simpa [maxNums_cons_none] using ih
      | some x =>
          rw [List.cons_append, maxNums_cons_some, maxNums_cons_some, ih]
          omega

theorem maxNums_ge (l : List IdNum) : ∀ x, some x ∈ l → x ≤ maxNums l := by
  induction l with
  | nil => intro x h; cases h
  | cons a l ih =>
      intro x h
      rcases List.mem_cons.mp h with h1 | h2
      · rw [← h1, maxNums_cons_some]; omega
      · cases a with
        | none => rw [maxNums_cons_none]; exact ih x h2
        | some y => rw [maxNums_cons_some]; exact le_trans (ih x h2) (by omega)

/-- The relationship-id allocator coincides with a counter seeded at the
maximum existing numeric value: each fresh id tops the updated maximum. -/
theorem relAllocRun_eq_counter (n : Nat) :
    ∀ existing, relAllocRun existing n = counterAllocRun (maxNums existing) n := by
  induction n with
  | zero => intro ex; rfl
  | succ n ih =>
      intro ex
      simp only [relAllocRun, counterAllocRun, next_numeric_id]
      congr 1
      rw [ih (ex ++ [some (maxNums ex + 1)])]
      congr 1
      rw [maxNums_append, maxNums_cons_some]
      simp [maxNums]

/-- Counter allocation strictly dominates its seed and strictly increases;
relationship-id allocation coincides with a counter seeded at the existing
maximum and so dominates every existing numeric id value.  Used by the C8
theorem below together with the seeding computations. -/
theorem id_allocation_monotone (existing : List IdNum) (n : Nat) :
    (∀ seed i (hi : i < (counterAllocRun seed n).length),
      seed < (counterAllocRun seed n)[i]) ∧
    (∀ seed i j (hi : i < (counterAllocRun seed n).length)
      (hj : j < (counterAllocRun seed n).length), i < j →
      (counterAllocRun seed n)[i] < (counterAllocRun seed n)[j]) ∧
    (∀ i j (hi : i < (relAllocRun existing n).length)
      (hj : j < (relAllocRun existing n).length), i < j →
      (relAllocRun existing n)[i] < (relAllocRun existing n)[j]) ∧
    (∀ i (hi : i < (relAllocRun existing n).length) (x : Nat), some x ∈ existing →
      x < (relAllocRun existing n)[i]) := by
  refine ⟨?_, ?_, ?_, ?_⟩
  · intro seed i hi
    rw [counterAllocRun_get n seed i hi]
    omega
  · intro seed i j hi hj hij
    rw [counterAllocRun_get n seed i hi, counterAllocRun_get n seed j hj]
    omega
  · intro i j hi hj hij
    have hi' : i < (counterAllocRun (maxNums existing) n).length := by
      rw [← relAllocRun_eq_counter]; exact hi
    have hj' : j < (counterAllocRun (maxNums existing) n).length := by
      rw [← relAllocRun_eq_counter]; exact hj
    have h := (relAllocRun_eq_counter n existing)
    rw [List.getElem_of_eq h hi, List.getElem_of_eq h hj,
      counterAllocRun_get n _ i hi', counterAllocRun_get n _ j hj']
    omega
  · intro i hi x hx
    have hi' : i < (counterAllocRun (maxNums existing) n).length := by
      rw [← relAllocRun_eq_counter]; exact hi
    rw [List.getElem_of_eq (relAllocRun_eq_counter n existing) hi,
      counterAllocRun_get n _ i hi']
    have := maxNums_ge existing x hx
    omega

theorem seedStep_ge (acc : Nat) (e : String × String) : acc ≤ seedStep acc e := by
  simp only [seedStep]
  split
  · split
    · exact le_max_left _ _
    · exact le_rfl
  · exact le_rfl

theorem foldl_seedStep_ge (rels : List (String × String)) :
    ∀ acc, acc ≤ rels.foldl seedStep acc := by
  induction rels with
  | nil => intro acc; exact le_rfl
  | cons e r ih =>
      intro acc
      rw [List.foldl_cons]
      exact le_trans (seedStep_ge acc e) (ih (seedStep acc e))

/-- Every slide number referenced by a slide-typed relationship is at most
the seeded maximum. -/
theorem seedSlideNum_ge (rels : List (String × String)) :
    ∀ acc tgt typ v, (tgt, typ) ∈ rels → endsWithStr typ "/slide" = true →
      slideNum? tgt = some v → v ≤ rels.foldl seedStep acc := by
  induction rels with
  | nil => intro acc tgt typ v h; cases h
  | cons e r ih =>
      intro acc tgt typ v hmem htyp hnum
      rw [List.foldl_cons]
      rcases List.mem_cons.mp hmem with heq | hin
      · have hv : v ≤ seedStep acc e := by
          rw [← heq]
          simp only [seedStep, htyp, if_true, hnum]
          exact le_max_right _ _
        exact le_trans hv (foldl_seedStep_ge r (seedStep acc e))
      · exact ih (seedStep acc e) tgt typ v hin htyp hnum

theorem foldl_max_ge (l : List Nat) : ∀ acc, acc ≤ l.foldl max acc := by
  induction l with
  | nil => intro acc; exact le_rfl
  | cons a r ih =>
      intro acc
      rw [List.foldl_cons]
      exact le_trans (le_max_left acc a) (ih (max acc a))

/-- Every existing slide-list id is at most the seeded maximum. -/
theorem seedSldId_ge (ids : List Nat) :
    ∀ acc v, v ∈ ids → v ≤ ids.foldl max acc := by
  induction ids with
  | nil => intro acc v h; cases h
  | cons a r ih =>
      intro acc v h
      rw [List.foldl_cons]
      rcases List.mem_cons.mp h with heq | hin
      · subst heq
        exact le_trans (le_max_right acc v) (foldl_max_ge r (max acc v))
      · exact ih (max acc a) v hin

/-- C8 (amended): every newly allocated slide part number strictly exceeds
every slide number referenced by a slide-typed relationship of the deck's
relationship index at the start of the run (the seed the code computes —
not the numbers of the slide parts present in the archive, see the
counterexample) and every previously allocated number; every newly allocated
slide-list id strictly exceeds every id in the slide-id list and every
previously allocated one; every newly allocated relationship id's numeric
value strictly exceeds that of every existing id and every previously
allocated one.  Within each kind, no allocation repeats or collides with its
baseline. -/
theorem id_allocation_seeded (rels : List (String × String)) (sldIds : List Nat)
    (existing : List IdNum) (n : Nat) :
    (∀ i (hi : i < (counterAllocRun (seedSlideNum rels) n).length),
      ∀ tgt typ v, (tgt, typ) ∈ rels → endsWithStr typ "/slide" = true →
        slideNum? tgt = some v →
        v < (counterAllocRun (seedSlideNum rels) n)[i]) ∧
    (∀ i j (hi : i < (counterAllocRun (seedSlideNum rels) n).length)
      (hj : j < (counterAllocRun (seedSlideNum rels) n).length), i < j →
      (counterAllocRun (seedSlideNum rels) n)[i]
        < (counterAllocRun (seedSlideNum rels) n)[j]) ∧
    (∀ i (hi : i < (counterAllocRun (seedSldId sldIds) n).length),
      ∀ v ∈ sldIds, v < (counterAllocRun (seedSldId sldIds) n)[i]) ∧
    (∀ i j (hi : i < (counterAllocRun (seedSldId sldIds) n).length)
      (hj : j < (counterAllocRun (seedSldId sldIds) n).length), i < j →
      (counterAllocRun (seedSldId sldIds) n)[i]
        < (counterAllocRun (seedSldId sldIds) n)[j]) ∧
    (∀ i j (hi : i < (relAllocRun existing n).length)
      (hj : j < (relAllocRun existing n).length), i < j →
      (relAllocRun existing n)[i] < (relAllocRun existing n)[j]) ∧
    (∀ i (hi : i < (relAllocRun existing n).length) (x : Nat), some x ∈ existing →
      x < (relAllocRun existing n)[i]) := by
  refine ⟨?_, ?_, ?_, ?_, ?_, ?_⟩
  · intro i hi tgt typ v hmem htyp hnum
    have h1 : v ≤ seedSlideNum rels := seedSlideNum_ge rels 0 tgt typ v hmem htyp hnum
    have h2 := (id_allocation_monotone existing n).1 (seedSlideNum rels) i hi
    omega
  · exact fun i j hi hj hij =>
      (id_allocation_monotone existing n).2.1 (seedSlideNum rels) i j hi hj hij
  · intro i hi v hv
    have h1 : v ≤ seedSldId sldIds := seedSldId_ge sldIds 0 v hv
    have h2 := (id_allocation_monotone existing n).1 (seedSldId sldIds) i hi
    omega
  · exact fun i j hi hj hij =>
      (id_allocation_monotone existing n).2.1 (seedSldId sldIds) i j hi hj hij
  · exact (id_allocation_monotone existing n).2.2.1
  · exact (id_allocation_monotone existing n).2.2.2

/-- Witness for C8 at a concrete run: over a deck referencing
`slides/slide3.xml`, both allocated part numbers top 3; over slide-list ids
`{7, 4}` the second allocation tops 7; two relationship ids over
`{rId7, rIdX, rId3}` increase and the first already tops the existing 7. -/
theorem id_allocation_seeded_witness :
    ((3 : Nat) < (counterAllocRun (seedSlideNum
        [("slides/slide3.xml", "http://x/slide")]) 2).get ⟨0, by decide⟩) ∧
    ((7 : Nat) < (counterAllocRun (seedSldId [7, 4]) 2).get ⟨1, by decide⟩) ∧
    ((relAllocRun [some 7, none, some 3] 2).get ⟨0, by decide⟩
      < (relAllocRun [some 7, none, some 3] 2).get ⟨1, by decide⟩) ∧
    ((7 : Nat) < (relAllocRun [some 7, none, some 3] 2).get ⟨0, by decide⟩) := by
  refine ⟨?_, ?_, ?_, ?_⟩
  · exact (id_allocation_seeded [("slides/slide3.xml", "http://x/slide")] [] [] 2).1
      0 (by decide) "slides/slide3.xml" "http://x/slide" 3 (by decide) (by decide)
      (by decide)
  · exact (id_allocation_seeded [] [7, 4] [] 2).2.2.1 1 (by decide) 7 (by decide)
  · exact (id_allocation_seeded [] [] [some 7, none, some 3] 2).2.2.2.2.1 0 1
      (by decide) (by decide) (by decide)
  · exact (id_allocation_seeded [] [] [some 7, none, some 3] 2).2.2.2.2.2 0
      (by decide) 7 (by decide)

/-- C8 counterexample to the unrestricted claim: `max_slide_num` is seeded
from the slide targets of `presentation.xml.rels`, not from the slide parts
of the archive.  A deck holding an unreferenced `ppt/slides/slide2.xml` next
to a referenced `slide1.xml` seeds the counter at 1, so the first allocated
part number is 2 — not strictly greater than the existing part number 2 —
and the first new-part write of the slide loop lands on
`ppt/slides/slide2.xml`, overwriting the existing part. -/
theorem id_allocation_counterexample :
    seedSlideNum [("slides/slide1.xml",
      "http://schemas.openxmlformats.org/officeDocument/2006/relationships/slide")]
      = 1 ∧
    counterAllocRun 1 1 = [2] ∧
    readPart [(["ppt", "slides", "slide2.xml"], 7)]
      ["ppt", "slides", "slide2.xml"] = some 7 ∧
    readPart (processSlide ([(["ppt", "slides", "slide2.xml"], 7)], 1)
        ⟨"slide1.xml", 1, [9], false, 0⟩).1
      ["ppt", "slides", "slide2.xml"] = some 9 := by
  refine ⟨by decide, by decide, by decide, by decide⟩

/-! ### Frame property of the conversion run (C9) -/

theorem readPart_write_ne (st : Store) (q p : PPath) (b : Bytes) (h : p ≠ q) :
    readPart (write_part st q b) p = readPart st p := by
  induction st with
  | nil =>
      simp only [write_part, readPart]
      rw [if_neg (fun hc : q = p => h hc.symm)]
  | cons e r ih =>
      obtain ⟨q', b'⟩ := e
      by_cases hq : q' = q
      · rw [show write_part ((q', b') :: r) q b = (q, b) :: r by simp [write_part, hq]]
        simp only [readPart]
        rw [if_neg (fun hc : q = p => h hc.symm),
          if_neg (fun hc : q' = p => h (hc.symm.trans hq))]
      · simp only [write_part, if_neg hq, readPart]
        by_cases hp : q' = p
        · simp [hp]
        · simp [hp, ih]

theorem extraStep_frame (hr : Bool) (rb : Bytes) (a : Store × Nat) (b : Bytes)
    (p : PPath) (hp : underSlides p = false) :
    readPart (extraStep hr rb a b).1 p = readPart a.1 p := by
  have h1 : p ≠ ["ppt", "slides", "slide" ++ toString (a.2 + 1) ++ ".xml"] := by
    intro hc; rw [hc] at hp; simp [underSlides] at hp
  have h2 : p ≠ ["ppt", "slides", "_rels",
      "slide" ++ toString (a.2 + 1) ++ ".xml" ++ ".rels"] := by
    intro hc; rw [hc] at hp; simp [underSlides] at hp
  simp only [extraStep]
  split
  · rw [readPart_write_ne _ _ _ _ h2, readPart_write_ne _ _ _ _ h1]
  · exact readPart_write_ne _ _ _ _ h1

theorem processSlide_frame (job : SlideJob) (acc : Store × Nat) (p : PPath)
    (hp : underSlides p = false) :
    readPart (processSlide acc job).1 p = readPart acc.1 p := by
  simp only [processSlide]
  have base : readPart (write_part acc.1 ["ppt", "slides", job.name] job.content0) p
      = readPart acc.1 p :=
    readPart_write_ne _ _ _ _ (by
      intro hc; rw [hc] at hp; simp [underSlides] at hp)
  exact foldl_inv (fun a : Store × Nat => readPart a.1 p = readPart acc.1 p)
    (extraStep job.hasRels job.relsBytes)
    (fun a b hPa => by
      show readPart (extraStep job.hasRels job.relsBytes a b).1 p = readPart acc.1 p
      rw [extraStep_frame job.hasRels job.relsBytes a b p hp]
      exact hPa)
    job.extras _ base

/-- C9: a part that is neither under the slides directory nor one of the two
deck-level manifest parts is byte-identical between the input store and the
store a conversion run writes out. -/
theorem untouched_parts_preserved (st0 : Store) (maxSlideNum : Nat)
    (jobs : List SlideJob) (presB relsB : Bytes) (p : PPath)
    (hp : underSlides p = false) (hm : ¬ isManifestPath p) :
    readPart (mainRun st0 maxSlideNum jobs presB relsB) p = readPart st0 p := by
  simp only [mainRun]
  rw [readPart_write_ne _ _ _ _ (fun hc => hm (Or.inr hc)),
    readPart_write_ne _ _ _ _ (fun hc => hm (Or.inl hc))]
  exact foldl_inv (fun a : Store × Nat => readPart a.1 p = readPart st0 p)
    processSlide
    (fun a j ha => by
      show readPart (processSlide a j).1 p = readPart st0 p
      rw [processSlide_frame j a p hp]
      exact ha)
    jobs (st0, maxSlideNum) rfl

/-- Witness for C9: a theme part survives a run that rewrites one animated
slide with two extra snapshots and the two manifest parts. -/
theorem untouched_parts_preserved_witness :
    readPart (mainRun [(["ppt", "theme", "theme1.xml"], 7)] 1
        [⟨"slide1.xml", 1, [2, 3], true, 4⟩] 5 6)
      ["ppt", "theme", "theme1.xml"] = some 7 := by
  rw [untouched_parts_preserved [(["ppt", "theme", "theme1.xml"], 7)] 1
    [⟨"slide1.xml", 1, [2, 3], true, 4⟩] 5 6 ["ppt", "theme", "theme1.xml"]
    (by decide) (by rintro (hc | hc) <;> exact absurd hc (by decide))]
  rfl

/-! ### Snapshot materialiser (C7) -/

@[simp] theorem xmlTag_elem (t : String) (a : List (String × String)) (cs : List Xml) :
    (Xml.elem t a cs).tag = t := rfl

@[simp] theorem xmlChildren_elem (t : String) (a : List (String × String))
    (cs : List Xml) : (Xml.elem t a cs).children = cs := rfl

@[simp] theorem pruneShapes_elem (vm : Dict) (t : String)
    (a : List (String × String)) (cs : List Xml) :
    pruneShapes vm (Xml.elem t a cs) = Xml.elem t a (pruneList vm cs) := by
  rw [pruneShapes]

theorem pruneList_cons (vm : Dict) (c : Xml) (cs : List Xml) :
    pruneList vm (c :: cs) =
      if keepElem vm c then pruneShapes vm c :: pruneList vm cs
      else pruneList vm cs := by
  rw [pruneList]

@[simp] theorem allElems_elem (t : String) (a : List (String × String))
    (cs : List Xml) : allElems (Xml.elem t a cs) = Xml.elem t a cs :: allElemsL cs := by
  rw [allElems]

@[simp] theorem allElemsL_cons (c : Xml) (cs : List Xml) :
    allElemsL (c :: cs) = allElems c ++ allElemsL cs := by
  rw [allElemsL]

@[simp] theorem allElemsL_nil : allElemsL [] = [] := by rw [allElemsL]

@[simp] theorem ctElem_elem (t : String) (a : List (String × String)) (cs : List Xml) :
    ctElem (Xml.elem t a cs) = (if t = "timing" then 1 else 0) + ctList cs := rfl

@[simp] theorem ctList_nil : ctList ([] : List Xml) = 0 := rfl

@[simp] theorem ctList_cons (c : Xml) (cs : List Xml) :
    ctList (c :: cs) = ctElem c + ctList cs := rfl

@[simp] theorem rftElem_elem (t : String) (a : List (String × String)) (cs : List Xml) :
    rftElem (Xml.elem t a cs) = Xml.elem t a (rftList cs) := rfl

@[simp] theorem rftList_nil : rftList [] = [] := rfl

theorem rftList_cons (c : Xml) (cs : List Xml) :
    rftList (c :: cs) =
      if c.tag = "timing" then cs
      else if 0 < ctElem c then rftElem c :: cs
      else c :: rftList cs := rfl

theorem findCNvPr_elem (t : String) (a : List (String × String)) (cs : List Xml) :
    findCNvPr (Xml.elem t a cs) = if t = "cNvPr" then some a else findCNvPrL cs := rfl

@[simp] theorem findCNvPrL_nil : findCNvPrL [] = none := rfl

theorem findCNvPrL_cons (c : Xml) (cs : List Xml) :
    findCNvPrL (c :: cs) =
      match findCNvPr c with
      | some a => some a
      | none => findCNvPrL cs := rfl

/-- Nested structural induction over child lists of the XML rose tree. -/
theorem xmlListInduction (P : List Xml → Prop) (hnil : P [])
    (hcons : ∀ (t : String) (a : List (String × String)) (k cs : List Xml),
      P k → P cs → P (Xml.elem t a k :: cs)) :
    ∀ cs, P cs := by
  have H : ∀ n (cs : List Xml), sizeOf cs ≤ n → P cs := by
    intro n
    induction n with
    | zero =>
        intro cs h
        cases cs with
        | nil => exact hnil
        | cons c cs =>
            exfalso
            cases c with
            | elem t a k => simp at h
    | succ n ih =>
        intro cs h
        cases cs with
        | nil => exact hnil
        | cons c cs =>
            cases c with
            | elem t a k =>
                have hk : sizeOf k ≤ n := by simp at h; omega
                have hcs : sizeOf cs ≤ n := by simp at h; omega
                exact hcons t a k cs (ih k hk) (ih cs hcs)
  intro cs
  exact H (sizeOf cs) cs le_rfl

/-- The shape sweep, declaratively: keep the surviving children, prune them
recursively. -/
theorem pruneList_eq_filter_map (vm : Dict) (cs : List Xml) :
    pruneList vm cs = (cs.filter (keepElem vm)).map (pruneShapes vm) := by
  induction cs with
  | nil => rw [pruneList]; rfl
  | cons c cs ih =>
      rw [pruneList_cons, List.filter_cons]
      by_cases h : keepElem vm c
      · simp [h, ih]
      · simp [h, ih]

theorem rftList_of_ct_zero (cs : List Xml) (h : ctList cs = 0) : rftList cs = cs := by
  induction cs with
  | nil => rw [rftList]
  | cons c cs ih =>
      have hc : ctElem c = 0 ∧ ctList cs = 0 := by
        rw [ctList] at h; omega
      have htag : ¬ c.tag = "timing" := by
        intro ht
        cases c with
        | elem t a k =>
            rw [ctElem] at hc
            simp at ht
            rw [if_pos ht] at hc
            omega
      rw [rftList, if_neg htag, if_neg (by omega : ¬ 0 < ctElem c), ih hc.2]

theorem ct_rftList : ∀ cs : List Xml, ctList cs ≤ 1 → ctList (rftList cs) = 0 := by
  refine xmlListInduction (fun cs => ctList cs ≤ 1 → ctList (rftList cs) = 0) ?_ ?_
  · intro _; simp
  · intro t a k cs ihk ihcs h
    simp only [ctList_cons, ctElem_elem] at h
    by_cases ht : t = "timing"
    · rw [rftList_cons, if_pos (show (Xml.elem t a k).tag = "timing" by simp [ht])]
      rw [if_pos ht] at h
      omega
    · rw [if_neg ht] at h
      by_cases hct : 0 < ctElem (Xml.elem t a k)
      · rw [rftList_cons,
          if_neg (show ¬ (Xml.elem t a k).tag = "timing" by simp [ht]), if_pos hct]
        simp only [ctList_cons, rftElem_elem, ctElem_elem, if_neg ht]
        rw [ihk (by omega)]
        rw [ctElem_elem, if_neg ht] at hct
        omega
      · rw [rftList_cons,
          if_neg (show ¬ (Xml.elem t a k).tag = "timing" by simp [ht]), if_neg hct]
        simp only [ctList_cons]
        have h0 : ctElem (Xml.elem t a k) = 0 := by omega
        rw [ihcs (by omega), h0]

theorem ct_pruneList_le : ∀ cs : List Xml, ∀ vm : Dict,
    ctList (pruneList vm cs) ≤ ctList cs := by
  refine xmlListInduction (fun cs => ∀ vm, ctList (pruneList vm cs) ≤ ctList cs) ?_ ?_
  · intro vm; rw [pruneList]
  · intro t a k cs ihk ihcs vm
    rw [pruneList_cons]
    by_cases hk : keepElem vm (Xml.elem t a k)
    · rw [if_pos hk]
      simp only [ctList_cons, pruneShapes_elem, ctElem_elem]
      have h1 := ihk vm
      have h2 := ihcs vm
      omega
    · rw [if_neg hk]
      simp only [ctList_cons]
      have h2 := ihcs vm
      omega

theorem findCNvPrL_none_prune : ∀ cs : List Xml, ∀ vm : Dict,
    findCNvPrL cs = none → findCNvPrL (pruneList vm cs) = none := by
  refine xmlListInduction
    (fun cs => ∀ vm, findCNvPrL cs = none → findCNvPrL (pruneList vm cs) = none) ?_ ?_
  · intro vm _; rw [pruneList]; rfl
  · intro t a k cs ihk ihcs vm h
    rw [findCNvPrL_cons, findCNvPr_elem] at h
    by_cases ht : t = "cNvPr"
    · rw [if_pos ht] at h; cases h
    · rw [if_neg ht] at h
      have hk : findCNvPrL k = none := by
        cases hfk : findCNvPrL k with
        | none => rfl
        | some a0 => rw [hfk] at h; cases h
      have hcs : findCNvPrL cs = none := by
        rw [hk] at h; exact h
      rw [pruneList_cons]
      by_cases hkeep : keepElem vm (Xml.elem t a k)
      · rw [if_pos hkeep, findCNvPrL_cons, pruneShapes_elem, findCNvPr_elem,
          if_neg ht, ihk vm hk]
        exact ihcs vm hcs
      · rw [if_neg hkeep]
        exact ihcs vm hcs

/-- Equal first-`cNvPr` id attributes give equal resolved shape ids. -/
theorem sidL_congr (cs cs' : List Xml) (h : sidAttr cs = sidAttr cs') :
    sidL cs = sidL cs' := by
  simp only [sidAttr] at h
  simp only [sidL]
  cases h1 : findCNvPrL cs with
  | none =>
      cases h2 : findCNvPrL cs' with
      | none => rfl
      | some a => rw [h1, h2] at h; cases h
  | some a =>
      cases h2 : findCNvPrL cs' with
      | none => rw [h1, h2] at h; cases h
      | some a' =>
          rw [h1, h2] at h
          simp only [Option.map_some', Option.some.injEq] at h
          show (match attrsLookup a "id" with | some s => parseInt s | none => none)
            = (match attrsLookup a' "id" with | some s => parseInt s | none => none)
          rw [h]

/-- A child whose resolved id is either absent or mapped visible survives the
sweep. -/
theorem keepElem_of_sid (vm : Dict) (t : String) (a : List (String × String))
    (k : List Xml) (h : ∀ i, sidL k = some i → dictGetD vm i true = true) :
    keepElem vm (Xml.elem t a k) = true := by
  simp only [keepElem, shapeId, xmlChildren_elem]
  split
  · cases hs : sidL k with
    | none => rfl
    | some i => exact h i hs
  · rfl

/-- Pruning below a kept element does not change which `cNvPr` is found
first, nor its id attribute: the sweep only removes shape subtrees whose
resolved id is hidden, and the spine to the first `cNvPr` resolves to the
same id, which the hypothesis keeps visible. -/
theorem sidAttr_prune : ∀ cs : List Xml, ∀ vm : Dict,
    (∀ i, sidL cs = some i → dictGetD vm i true = true) →
    sidAttr (pruneList vm cs) = sidAttr cs := by
  refine xmlListInduction
    (fun cs => ∀ vm, (∀ i, sidL cs = some i → dictGetD vm i true = true) →
      sidAttr (pruneList vm cs) = sidAttr cs) ?_ ?_
  · intro vm _; rw [pruneList]
  · intro t a k cs ihk ihcs vm h
    by_cases ht : t = "cNvPr"
    · have hns : ¬ (Xml.elem t a k).tag ∈ newShapeTags := by
        simp [newShapeTags, ht]
      have hkeep : keepElem vm (Xml.elem t a k) = true := by
        simp only [keepElem]
        rw [if_neg hns]
      rw [pruneList_cons, if_pos hkeep]
      simp only [sidAttr, findCNvPrL_cons, pruneShapes_elem, findCNvPr_elem,
        if_pos ht]
    · cases hfk : findCNvPrL k with
      | none =>
          have hsid : sidL (Xml.elem t a k :: cs) = sidL cs := by
            simp only [sidL, findCNvPrL_cons, findCNvPr_elem, if_neg ht, hfk]
          have hattr : sidAttr (Xml.elem t a k :: cs) = sidAttr cs := by
            simp only [sidAttr, findCNvPrL_cons, findCNvPr_elem, if_neg ht, hfk]
          have h' : ∀ i, sidL cs = some i → dictGetD vm i true = true := by
            intro i hi; exact h i (by rw [hsid]; exact hi)
          rw [pruneList_cons]
          by_cases hkeep : keepElem vm (Xml.elem t a k)
          · rw [if_pos hkeep]
            have hpk : findCNvPrL (pruneList vm k) = none :=
              findCNvPrL_none_prune k vm hfk
            rw [hattr, ← ihcs vm h']
            simp only [sidAttr, findCNvPrL_cons, pruneShapes_elem, findCNvPr_elem,
              if_neg ht, hpk]
          · rw [if_neg hkeep, hattr]
            exact ihcs vm h'
      | some a0 =>
          have hsid : sidL (Xml.elem t a k :: cs) = sidL k := by
            simp only [sidL, findCNvPrL_cons, findCNvPr_elem, if_neg ht, hfk]
          have hk' : ∀ i, sidL k = some i → dictGetD vm i true = true := by
            intro i hi; exact h i (by rw [hsid]; exact hi)
          have hkeep : keepElem vm (Xml.elem t a k) = true :=
            keepElem_of_sid vm t a k hk'
          rw [pruneList_cons, if_pos hkeep]
          have hrec := ihk vm hk'
          rw [show sidAttr k = some (attrsLookup a0 "id") by
            simp only [sidAttr, hfk]; rfl] at hrec
          obtain ⟨a1, ha1, ha1eq⟩ := Option.map_eq_some'.mp hrec
          simp only [sidAttr] at ha1 ⊢
          rw [findCNvPrL_cons, pruneShapes_elem, findCNvPr_elem, if_neg ht]
          cases hp : findCNvPrL (pruneList vm k) with
          | none => rw [hp] at ha1; cases ha1
          | some a2 =>
              rw [hp] at ha1
              simp only [Option.some.injEq] at ha1
              subst ha1
              simp only [findCNvPrL_cons, findCNvPr_elem, if_neg ht, hfk,
                Option.map_some']
              rw [ha1eq]

/-- Every shape element surviving the sweep resolves to a visible (or
unmapped) id: hidden shapes are removed together with their subtrees. -/
theorem pruned_shapes_visible : ∀ cs : List Xml, ∀ vm : Dict,
    ∀ e' ∈ allElemsL (pruneList vm cs), e'.tag ∈ newShapeTags →
      ∀ i, shapeId e' = some i → dictGetD vm i true = true := by
  refine xmlListInduction
    (fun cs => ∀ vm, ∀ e' ∈ allElemsL (pruneList vm cs), e'.tag ∈ newShapeTags →
      ∀ i, shapeId e' = some i → dictGetD vm i true = true) ?_ ?_
  · intro vm e' he'
    rw [pruneList] at he'
    simp at he'
  · intro t a k cs ihk ihcs vm e' he' htag i hid
    rw [pruneList_cons] at he'
    by_cases hkeep : keepElem vm (Xml.elem t a k) = true
    · rw [if_pos hkeep] at he'
      simp only [allElemsL_cons, pruneShapes_elem, allElems_elem] at he'
      rcases List.mem_append.mp he' with he1 | he2
      · rcases List.mem_cons.mp he1 with heq | hin
        · have htag' : t ∈ newShapeTags := by
            rw [heq, xmlTag_elem] at htag; exact htag
          have hk' : ∀ j, sidL k = some j → dictGetD vm j true = true := by
            intro j hj
            have hcopy := hkeep
            simp only [keepElem, xmlTag_elem, if_pos htag', shapeId,
              xmlChildren_elem, hj] at hcopy
            exact hcopy
          have hsid : shapeId e' = sidL k := by
            rw [heq]
            simp only [shapeId, xmlChildren_elem]
            exact sidL_congr _ _ (sidAttr_prune k vm hk')
          rw [hsid] at hid
          exact hk' i hid
        · exact ihk vm e' hin htag i hid
      · exact ihcs vm e' he2 htag i hid
    · rw [if_neg hkeep] at he'
      exact ihcs vm e' he' htag i hid

/-- When the snapshot maps none of the tree's shape ids, the sweep removes
nothing. -/
theorem pruneList_id : ∀ cs : List Xml, ∀ vm : Dict,
    (∀ e' ∈ allElemsL cs, ∀ i, shapeId e' = some i → dictLookup vm i = none) →
    pruneList vm cs = cs := by
  refine xmlListInduction
    (fun cs => ∀ vm,
      (∀ e' ∈ allElemsL cs, ∀ i, shapeId e' = some i → dictLookup vm i = none) →
      pruneList vm cs = cs) ?_ ?_
  · intro vm _; rw [pruneList]
  · intro t a k cs ihk ihcs vm h
    have hk : ∀ e' ∈ allElemsL k, ∀ i, shapeId e' = some i →
        dictLookup vm i = none := by
      intro e' he' i hi
      refine h e' ?_ i hi
      rw [allElemsL_cons, allElems_elem]
      exact List.mem_append.mpr (Or.inl (List.mem_cons.mpr (Or.inr he')))
    have hcs : ∀ e' ∈ allElemsL cs, ∀ i, shapeId e' = some i →
        dictLookup vm i = none := by
      intro e' he' i hi
      refine h e' ?_ i hi
      rw [allElemsL_cons]
      exact List.mem_append.mpr (Or.inr he')
    have hself : ∀ i, shapeId (Xml.elem t a k) = some i → dictLookup vm i = none := by
      intro i hi
      refine h _ ?_ i hi
      rw [allElemsL_cons, allElems_elem]
      exact List.mem_append.mpr (Or.inl (List.mem_cons.mpr (Or.inl rfl)))
    have hkeep : keepElem vm (Xml.elem t a k) = true := by
      simp only [keepElem]
      split
      · cases hs : shapeId (Xml.elem t a k) with
        | none => rfl
        | some i => simp [dictGetD, hself i hs]
      · rfl
    rw [pruneList_cons, if_pos hkeep, pruneShapes_elem, ihk vm hk, ihcs vm hcs]

/-- C7 (amended): `materialise_snapshot` of `new.py` lines 130-148 (a)
leaves no timing element in the output, (b) leaves no `sp`/`pic`/
`graphicFrame` element — the kinds its xpath matches — whose resolved id the
snapshot maps to hidden: such shapes disappear together with their whole
subtree, (c) prunes a child list elementwise: a hidden matched child nested
inside a kept (group) element is removed alone while every kept sibling
survives in place, and (d) deletes nothing when no shape id of the tree
appears in the snapshot.  A group (`grpSp`) element carrying a false-mapped
id is not matched and stays (see the counterexample to the unrestricted
claim). -/
theorem materialise_snapshot_spec :
    (∀ (vm : Dict) (t : String) (a : List (String × String)) (cs : List Xml),
      t ≠ "timing" → ctList cs ≤ 1 →
      ctElem (materialise_snapshot vm (Xml.elem t a cs)) = 0) ∧
    (∀ (vm : Dict) (t : String) (a : List (String × String)) (cs : List Xml),
      t ∉ newShapeTags →
      ∀ e' ∈ allElems (materialise_snapshot vm (Xml.elem t a cs)),
        e'.tag ∈ newShapeTags → ∀ i, shapeId e' = some i →
        dictGetD vm i true = true) ∧
    (∀ (vm : Dict) (t : String) (a : List (String × String)) (cs : List Xml),
      (pruneShapes vm (Xml.elem t a cs)).children
        = (cs.filter (keepElem vm)).map (pruneShapes vm) ∧
      ∀ c ∈ cs, keepElem vm c = true →
        pruneShapes vm c ∈ (pruneShapes vm (Xml.elem t a cs)).children) ∧
    (∀ (vm : Dict) (t : String) (a : List (String × String)) (cs : List Xml),
      ctList cs = 0 →
      (∀ e' ∈ allElemsL cs, ∀ i, shapeId e' = some i → dictLookup vm i = none) →
      materialise_snapshot vm (Xml.elem t a cs) = Xml.elem t a cs) := by
  refine ⟨?_, ?_, ?_, ?_⟩
  · intro vm t a cs ht hct
    have h1 := ct_pruneList_le (rftList cs) vm
    have h2 := ct_rftList cs hct
    simp only [materialise_snapshot, rftElem_elem, pruneShapes_elem, ctElem_elem,
      if_neg ht]
    omega
  · intro vm t a cs ht e' he' htag i hid
    simp only [materialise_snapshot, rftElem_elem, pruneShapes_elem,
      allElems_elem] at he'
    rcases List.mem_cons.mp he' with heq | hin
    · exfalso
      rw [heq, xmlTag_elem] at htag
      exact ht htag
    · exact pruned_shapes_visible (rftList cs) vm e' hin htag i hid
  · intro vm t a cs
    constructor
    · simp only [pruneShapes_elem, xmlChildren_elem]
      exact pruneList_eq_filter_map vm cs
    · intro c hc hkc
      simp only [pruneShapes_elem, xmlChildren_elem]
      rw [pruneList_eq_filter_map]
      exact List.mem_map_of_mem _ (List.mem_filter.mpr ⟨hc, hkc⟩)
  · intro vm t a cs hct h
    simp only [materialise_snapshot, rftElem_elem, pruneShapes_elem]
    rw [rftList_of_ct_zero cs hct, pruneList_id cs vm h]

/-- Witness for C7: on the demonstration slide — shape 3 beside a group
(id 4) holding shapes 5 and 6, plus a timing subtree — with shape 6 hidden:
the output has no timing element; the surviving shape 3 resolves visible;
the pruned group still contains shape 5; and with an empty snapshot a
timing-free slide is returned unchanged. -/
theorem materialise_snapshot_spec_witness :
    ctElem (materialise_snapshot [((6 : Int), false)] demoSlide) = 0 ∧
    dictGetD [((9 : Int), false)] 3 true = true ∧
    pruneShapes [((6 : Int), false)] (demoShape "5")
      ∈ (pruneShapes [((6 : Int), false)] demoGroup).children ∧
    materialise_snapshot [] (Xml.elem "sld" [] [demoShape "3"])
      = Xml.elem "sld" [] [demoShape "3"] := by
  refine ⟨?_, ?_, ?_, ?_⟩
  · exact materialise_snapshot_spec.1 [((6 : Int), false)] "sld" []
      demoSlide.children (by decide) (by decide)
  · refine materialise_snapshot_spec.2.1 [((9 : Int), false)] "sld" []
      [demoShape "3"] (by decide) (demoShape "3") ?_ (by decide) 3 (by decide)
    have hlist : allElems (materialise_snapshot [((9 : Int), false)]
        (Xml.elem "sld" [] [demoShape "3"]))
        = [Xml.elem "sld" [] [demoShape "3"], demoShape "3",
           Xml.elem "nvSpPr" [] [Xml.elem "cNvPr" [("id", "3")] []],
           Xml.elem "cNvPr" [("id", "3")] [], Xml.elem "spPr" [] []] := rfl
    rw [hlist]
    exact List.mem_cons_of_mem _ (List.mem_cons_self _ _)
  · exact (materialise_snapshot_spec.2.2.1 [((6 : Int), false)] "grpSp" []
      demoGroup.children).2 (demoShape "5")
      (List.mem_cons_of_mem _ (List.mem_cons_self _ _)) (by decide)
  · exact materialise_snapshot_spec.2.2.2 [] "sld" [] [demoShape "3"]
      (by decide) (fun e' _ i _ => rfl)

/-- C7 counterexample to the unrestricted claim: the cited materialiser
(`new.py` lines 130-148) matches only `sp`, `pic` and `graphicFrame`, so a
group element carrying a hidden-mapped id is NOT removed — mapping the
group's own id 4 to false leaves the group and all of its descendants in the
output, refuting "for every shape id mapped to false, the subtree rooted at
the element carrying that id [is] removed". -/
theorem materialise_group_counterexample :
    shapeId demoGroup = some 4 ∧
    dictGetD [((4 : Int), false)] 4 true = false ∧
    materialise_snapshot [((4 : Int), false)] demoSlide
      = Xml.elem "sld" []
          [Xml.elem "cSld" [] [Xml.elem "spTree" [] [demoShape "3", demoGroup]]] := by
  exact ⟨rfl, rfl, rfl⟩

end PptxSplit
